import Mathlib

/-!
Shallow embedding of the nand2tetris-suite core (C++ sources) in Lean 4,
together with theorems settling the frozen specification claims.

Conventions used throughout:
* C++ `Word` (`uint16_t`) values are modelled as `Nat`; wherever the C++
  performs 16-bit wraparound (casts to `Word`, `Word` arithmetic) the model
  takes the result modulo `65536` explicitly (`wcast`).
* C++ `std::array` RAM/ROM banks are modelled as total functions `Nat → Nat`
  updated pointwise (`updateFn`).  Theorems carry range hypotheses keeping
  every modelled access inside the bounds the C++ arrays have, so the model
  is only ever consulted where the C++ behaviour is defined.
* C++ exceptions (`ParseError`, `RuntimeError`, ...) become `Option`/`Except`
  results; `none`/`.error` marks the throw.  Where an exception escapes a
  member function after earlier writes already happened, the model performs
  those writes before reporting the error, mirroring the partial mutation.
-/

/-- Pointwise update of a memory bank modelled as a function. -/
def updateFn (f : Nat → Nat) (a v : Nat) : Nat → Nat :=
  fun x => if x = a then v else f x

/-- The C++ `static_cast<uint16_t>` / `Word` conversion applied to a signed
intermediate: reduce an `Int` modulo `2^16` into `[0, 65536)`. -/
def wcast (i : Int) : Nat := (i % 65536).toNat

/-- Reinterpret a 16-bit word as a signed 16-bit integer
(the C++ `static_cast<int16_t>` on a `Word`). -/
def toSigned (w : Nat) : Int :=
  if w % 65536 < 32768 then ((w % 65536 : Nat) : Int)
  else ((w % 65536 : Nat) : Int) - 65536


/-! ## Instruction decoder (`src/core/cpu/instruction.cpp`)

The C++ `DecodedInstruction` stores a `Computation` enum whose numeric value
is the raw 7-bit comp field, a `Destination` flag triple, and a
`JumpCondition` enum whose numeric value is the raw 3-bit jump field; the
enums are modelled by the corresponding `Nat` codes. -/

inductive InstructionType where
  | A_INSTRUCTION
  | C_INSTRUCTION
deriving DecidableEq, Repr

structure Destination where
  a : Bool
  d : Bool
  m : Bool
deriving DecidableEq, Repr

structure DecodedInstruction where
  type : InstructionType
  value : Nat
  comp : Nat
  dest : Destination
  jump : Nat
  reads_memory : Bool
deriving DecidableEq, Repr

/-- The 28 valid 7-bit comp codes, exactly the entries set to `true` in the
C++ `make_valid_comp_table`. -/
def VALID_COMP_LIST : List Nat :=
  [0b0101010, 0b0111111, 0b0111010, 0b0001100, 0b0110000, 0b0001101,
   0b0110001, 0b0001111, 0b0110011, 0b0011111, 0b0110111, 0b0001110,
   0b0110010, 0b0000010, 0b0010011, 0b0000111, 0b0000000, 0b0010101,
   0b1110000, 0b1110001, 0b1110011, 0b1110111, 0b1110010, 0b1000010,
   0b1010011, 0b1000111, 0b1000000, 0b1010101]

/-- `is_valid_computation` from `instruction.cpp`: table lookup guarded by
`comp_bits >= 128 → false`. -/
def is_valid_computation (comp_bits : Nat) : Bool :=
  decide (comp_bits < 128) && VALID_COMP_LIST.contains comp_bits

/-- `decode_instruction` from `instruction.cpp`.  The value-initialised
fields of the C++ `DecodedInstruction decoded{}` (comp = 0, dest flags all
false, jump = 0) are written out explicitly in the A branch. -/
def decode_instruction (instruction : Nat) : DecodedInstruction :=
  if instruction &&& 0x8000 = 0 then
    { type := .A_INSTRUCTION
      value := instruction &&& 0x7FFF
      comp := 0
      dest := ⟨false, false, false⟩
      jump := 0
      reads_memory := false }
  else
    let comp_bits := (instruction >>> 6) &&& 0x7F
    let dest_bits := (instruction >>> 3) &&& 0x7
    let jump_bits := instruction &&& 0x7
    { type := .C_INSTRUCTION
      value := 0
      comp := comp_bits
      dest := ⟨dest_bits &&& 0x4 != 0, dest_bits &&& 0x2 != 0, dest_bits &&& 0x1 != 0⟩
      jump := jump_bits
      reads_memory := comp_bits &&& 0x40 != 0 }

/-! ## CPU memory (`CPUMemory`, unnamed part of the sources)

ROM and RAM are the C++ `std::array<Word, 32768>` banks; the loaders throw
`ParseError`/`RuntimeError` modelled by `RomLoadError`/`Option`.  The text
loader receives its input already split into lines (the `std::getline`
decomposition of the `.hack` text). -/

namespace CPUAddress

def SCREEN_BASE : Nat := 16384

def SCREEN_SIZE : Nat := 8192

def KEYBOARD : Nat := 24576

def RAM_SIZE : Nat := 32768

def ROM_SIZE : Nat := 32768

end CPUAddress

inductive RomLoadError where
  | tooLarge (lineNumber : Nat)
  | badLength (lineNumber : Nat) (length : Nat)
  | badChar (lineNumber : Nat) (position : Nat) (c : Char)
deriving DecidableEq, Repr

structure CPUMemory where
  rom : Nat → Nat
  ram : Nat → Nat
  program_size : Nat
  screen_dirty : Bool

/-- `CPUMemory::reset`: zero both banks, clear the size and the dirty flag
(also the state the constructor establishes). -/
def CPUMemory.reset : CPUMemory :=
  { rom := fun _ => 0, ram := fun _ => 0, program_size := 0, screen_dirty := false }

/-- Trailing-whitespace trim loop of `load_rom_string`: pop the last
character while it is `'\r'`, `' '` or `'\t'`. -/
def trimTrailing (line : List Char) : List Char :=
  (line.reverse.dropWhile (fun c => c == '\r' || c == ' ' || c == '\t')).reverse

/-- Character loop of `CPUMemory::parse_binary_line`: `i` is the current
position, `result` the word accumulated so far. -/
def parseBits (lineNumber : Nat) : List Char → Nat → Nat → Except RomLoadError Nat
  | [], _, result => .ok result
  | c :: rest, i, result =>
    if c = '1' then parseBits lineNumber rest (i + 1) (result ||| (1 <<< (15 - i)))
    else if c ≠ '0' then .error (.badChar lineNumber (i + 1) c)
    else parseBits lineNumber rest (i + 1) result

/-- `CPUMemory::parse_binary_line`: a trimmed line must be exactly 16
characters of `'0'`/`'1'`; the error payloads carry the data the C++
messages interpolate (line number, length, offending character, position). -/
def parse_binary_line (line : List Char) (lineNumber : Nat) : Except RomLoadError Nat :=
  if line.length ≠ 16 then .error (.badLength lineNumber line.length)
  else parseBits lineNumber line 0 0

/-- Line loop of `CPUMemory::load_rom_string` (after `rom_.fill(0)` and
`program_size_ = 0`): trim, skip blanks, bound-check, parse, store. -/
def load_rom_lines (rom : Nat → Nat) (program_size : Nat) :
    List (List Char) → Nat → Except RomLoadError ((Nat → Nat) × Nat)
  | [], _ => .ok (rom, program_size)
  | line :: rest, line_number =>
    let ln := line_number + 1
    let t := trimTrailing line
    if t.isEmpty then load_rom_lines rom program_size rest ln
    else if program_size ≥ CPUAddress.ROM_SIZE then .error (.tooLarge ln)
    else
      match parse_binary_line t ln with
      | .error e => .error e
      | .ok w => load_rom_lines (updateFn rom program_size w) (program_size + 1) rest ln

/-- `CPUMemory::load_rom_string`.  Note that neither `ram_` nor
`screen_dirty_` is touched by the C++ member. -/
def CPUMemory.load_rom_string (m : CPUMemory) (lines : List (List Char)) :
    Except RomLoadError CPUMemory :=
  match load_rom_lines (fun _ => 0) 0 lines 0 with
  | .error e => .error e
  | .ok (rom, size) => .ok { m with rom := rom, program_size := size }

/-- Copy loop of `CPUMemory::load_rom`. -/
def writeWordsAt : (Nat → Nat) → Nat → List Nat → (Nat → Nat)
  | rom, _, [] => rom
  | rom, i, w :: ws => writeWordsAt (updateFn rom i w) (i + 1) ws

/-- `CPUMemory::load_rom` (pre-decoded instruction words); `none` is the
`RuntimeError` thrown when the program exceeds ROM capacity.  As in the
source, `screen_dirty_` is not touched. -/
def CPUMemory.load_rom (m : CPUMemory) (instructions : List Nat) : Option CPUMemory :=
  if instructions.length > CPUAddress.ROM_SIZE then none
  else some { m with rom := writeWordsAt (fun _ => 0) 0 instructions
                   , program_size := instructions.length }

/-- `CPUMemory::read_ram` with its bounds check. -/
def CPUMemory.read_ram (m : CPUMemory) (address : Nat) : Option Nat :=
  if address ≥ CPUAddress.RAM_SIZE then none else some (m.ram address)

/-- `CPUMemory::write_ram`: bounds check, write, and the screen-range test
that raises the dirty flag. -/
def CPUMemory.write_ram (m : CPUMemory) (address value : Nat) : Option CPUMemory :=
  if address ≥ CPUAddress.RAM_SIZE then none
  else some { m with
    ram := updateFn m.ram address value
    screen_dirty :=
      if CPUAddress.SCREEN_BASE ≤ address ∧
         address < CPUAddress.SCREEN_BASE + CPUAddress.SCREEN_SIZE then true
      else m.screen_dirty }

/-- `CPUMemory::get_pixel`.  Coordinates are C++ `int`; in the in-range
branch they are non-negative so `Int.toNat` matches the C++ arithmetic. -/
def CPUMemory.get_pixel (m : CPUMemory) (x y : Int) : Bool :=
  if x < 0 ∨ x ≥ 512 ∨ y < 0 ∨ y ≥ 256 then false
  else
    let word_offset := y.toNat * 32 + x.toNat / 16
    let bit_offset := x.toNat % 16
    (m.ram (CPUAddress.SCREEN_BASE + word_offset) >>> bit_offset) &&& 1 != 0

/-- `CPUMemory::set_pixel`.  `static_cast<Word>(~(1 << b))` with `b < 16`
is the 16-bit mask `65535 ^^^ (1 <<< b)`. -/
def CPUMemory.set_pixel (m : CPUMemory) (x y : Int) (on_ : Bool) : CPUMemory :=
  if x < 0 ∨ x ≥ 512 ∨ y < 0 ∨ y ≥ 256 then m
  else
    let word_offset := y.toNat * 32 + x.toNat / 16
    let bit_offset := x.toNat % 16
    let addr := CPUAddress.SCREEN_BASE + word_offset
    let w := m.ram addr
    let w' := if on_ then w ||| (1 <<< bit_offset)
              else w &&& (65535 ^^^ (1 <<< bit_offset))
    { m with ram := updateFn m.ram addr w', screen_dirty := true }

/-! ## VM memory (`src/core/vm/vm_memory.cpp`)

The RAM bank, the shadow call stack (list head = `std::vector` back) and the
per-file static allocation state.  `Option` results model the thrown
`RuntimeError`s. -/

namespace VMAddress

def SP : Nat := 0

def LCL : Nat := 1

def ARG : Nat := 2

def THIS : Nat := 3

def THAT : Nat := 4

def TEMP_BASE : Nat := 5

def TEMP_SIZE : Nat := 8

def STATIC_BASE : Nat := 16

def STACK_BASE : Nat := 256

def STACK_MAX : Nat := 2047

def SCREEN_BASE : Nat := 16384

def RAM_SIZE : Nat := 32768

end VMAddress

structure CallFrame where
  return_address : Nat
  function_name : String
  num_args : Nat
  num_locals : Nat
  saved_lcl : Nat
  saved_arg : Nat
  saved_this : Nat
  saved_that : Nat
deriving DecidableEq, Repr

structure VMMemory where
  ram : Nat → Nat
  call_stack : List CallFrame
  static_bases : List (String × Nat)
  next_static_address : Nat

/-- `VMMemory::reset`: zero RAM, point SP at the stack base, clear the call
stack and the static allocations. -/
def VMMemory.reset : VMMemory :=
  { ram := updateFn (fun _ => 0) VMAddress.SP VMAddress.STACK_BASE
    call_stack := []
    static_bases := []
    next_static_address := VMAddress.STATIC_BASE }

/-- `VMMemory::push` with its overflow check; `none` is the thrown stack
overflow `RuntimeError`. -/
def VMMemory.push (m : VMMemory) (value : Nat) : Option VMMemory :=
  let sp := m.ram VMAddress.SP
  if sp > VMAddress.STACK_MAX then none
  else some { m with ram := updateFn (updateFn m.ram sp value) VMAddress.SP (sp + 1) }

/-- `VMMemory::pop` with its underflow check; returns the popped word and
the new state. -/
def VMMemory.pop (m : VMMemory) : Option (Nat × VMMemory) :=
  let sp := m.ram VMAddress.SP
  if sp ≤ VMAddress.STACK_BASE then none
  else some (m.ram (sp - 1), { m with ram := updateFn m.ram VMAddress.SP (sp - 1) })

/-- `VMMemory::peek`. -/
def VMMemory.peek (m : VMMemory) : Option Nat :=
  let sp := m.ram VMAddress.SP
  if sp ≤ VMAddress.STACK_BASE then none
  else some (m.ram (sp - 1))

/-- Local-variable zeroing loop at the end of `VMMemory::push_frame`; the
write index is a C++ `Word`, hence the modulus. -/
def zeroLocals : (Nat → Nat) → Nat → Nat → (Nat → Nat)
  | r, _, 0 => r
  | r, base, k + 1 => zeroLocals (updateFn r (base % 65536) 0) (base + 1) k

/-- `VMMemory::push_frame`.  No bounds check is performed anywhere in the
C++ member: the five saved words and the local zeros are written
unconditionally.  All stack indices are `Word` values (mod `2^16`). -/
def VMMemory.push_frame (m : VMMemory) (return_address : Nat)
    (function_name : String) (num_args num_locals : Nat) : VMMemory :=
  let frame : CallFrame :=
    { return_address := return_address
      function_name := function_name
      num_args := num_args
      num_locals := num_locals
      saved_lcl := m.ram VMAddress.LCL
      saved_arg := m.ram VMAddress.ARG
      saved_this := m.ram VMAddress.THIS
      saved_that := m.ram VMAddress.THAT }
  let sp := m.ram VMAddress.SP
  let r1 := updateFn m.ram (sp % 65536) (return_address % 65536)
  let r2 := updateFn r1 ((sp + 1) % 65536) frame.saved_lcl
  let r3 := updateFn r2 ((sp + 2) % 65536) frame.saved_arg
  let r4 := updateFn r3 ((sp + 3) % 65536) frame.saved_this
  let r5 := updateFn r4 ((sp + 4) % 65536) frame.saved_that
  let r6 := updateFn r5 VMAddress.ARG (wcast ((sp : Int) + 5 - num_args - 5))
  let r7 := updateFn r6 VMAddress.LCL ((sp + 5) % 65536)
  let r8 := zeroLocals r7 (sp + 5) num_locals
  let r9 := updateFn r8 VMAddress.SP ((sp + 5 + num_locals) % 65536)
  { m with ram := r9, call_stack := frame :: m.call_stack }

/-- `VMMemory::pop_frame`; `none` is the `RuntimeError` on an empty call
stack.  The return address is read from `RAM[frame_ptr - 5]` before any
write, then THAT/THIS/ARG/LCL are restored in that order (each read seeing
the previous writes, as in the sequential C++ code), the return value is
stored at the saved ARG address and SP is set past it. -/
def VMMemory.pop_frame (m : VMMemory) (return_value : Nat) : Option (Nat × VMMemory) :=
  match m.call_stack with
  | [] => none
  | _ :: rest =>
    let frame_ptr := m.ram VMAddress.LCL
    let ret_addr := m.ram (wcast ((frame_ptr : Int) - 5))
    let arg_addr := m.ram VMAddress.ARG
    let r1 := updateFn m.ram VMAddress.THAT (m.ram (wcast ((frame_ptr : Int) - 1)))
    let r2 := updateFn r1 VMAddress.THIS (r1 (wcast ((frame_ptr : Int) - 2)))
    let r3 := updateFn r2 VMAddress.ARG (r2 (wcast ((frame_ptr : Int) - 3)))
    let r4 := updateFn r3 VMAddress.LCL (r3 (wcast ((frame_ptr : Int) - 4)))
    let r5 := updateFn r4 arg_addr return_value
    let r6 := updateFn r5 VMAddress.SP ((arg_addr + 1) % 65536)
    some (ret_addr, { m with ram := r6, call_stack := rest })

/-- `VMMemory::get_pixel` (same pixel arithmetic as the CPU memory). -/
def VMMemory.get_pixel (m : VMMemory) (x y : Int) : Bool :=
  if x < 0 ∨ x ≥ 512 ∨ y < 0 ∨ y ≥ 256 then false
  else
    let word_offset := y.toNat * 32 + x.toNat / 16
    let bit_offset := x.toNat % 16
    (m.ram (VMAddress.SCREEN_BASE + word_offset) >>> bit_offset) &&& 1 != 0

/-- `VMMemory::set_pixel` (no dirty flag exists on the VM memory). -/
def VMMemory.set_pixel (m : VMMemory) (x y : Int) (on_ : Bool) : VMMemory :=
  if x < 0 ∨ x ≥ 512 ∨ y < 0 ∨ y ≥ 256 then m
  else
    let word_offset := y.toNat * 32 + x.toNat / 16
    let bit_offset := x.toNat % 16
    let addr := VMAddress.SCREEN_BASE + word_offset
    let w := m.ram addr
    let w' := if on_ then w ||| (1 <<< bit_offset)
              else w &&& (65535 ^^^ (1 <<< bit_offset))
    { m with ram := updateFn m.ram addr w' }

/-! ## CPU engine (`CPUEngine`, unnamed part of the sources)

`pc_` is a C++ `Address` (`uint16_t`), so its increment wraps modulo
`2^16`.  The thrown `N2TError`s of a single instruction are modelled by
`CPUErrorKind`; the catch block's effect (record message and location, move
to ERROR) is inlined at each throw site, preserving whatever registers were
already written before the throw. -/

structure CPUStats where
  instructions_executed : Nat
  a_instruction_count : Nat
  c_instruction_count : Nat
  jump_count : Nat
  memory_reads : Nat
  memory_writes : Nat
deriving DecidableEq, Repr

def CPUStats.reset : CPUStats := ⟨0, 0, 0, 0, 0, 0⟩

inductive CPURunState where
  | READY
  | RUNNING
  | PAUSED
  | HALTED
  | ERROR
deriving DecidableEq, Repr

inductive CPUPauseReason where
  | NONE
  | STEP_COMPLETE
  | BREAKPOINT
  | USER_REQUEST
deriving DecidableEq, Repr

inductive CPUErrorKind where
  | readOutOfBounds (address : Nat)
  | writeOutOfBounds (address : Nat)
  | invalidComp (pc : Nat)
deriving DecidableEq, Repr

structure CPUEngine where
  memory : CPUMemory
  a_register : Nat
  d_register : Nat
  pc : Nat
  state : CPURunState
  pause_reason : CPUPauseReason
  pause_requested : Bool
  breakpoints : List Nat
  stats : CPUStats
  error_message : Option CPUErrorKind
  error_location : Nat

/-- `CPUEngine::compute_alu`: the switch over the 28 `Computation` codes;
`none` is the thrown invalid-computation `RuntimeError`.  Operands are
signed 16-bit (`toSigned`), the `int16_t` result is returned as a `Word`
(`wcast`); `~x` on a two's-complement `int16_t` is `-x - 1`, and the
bitwise cases work on the 16-bit patterns directly. -/
def compute_alu (comp d_val am_val : Nat) : Option Nat :=
  let d := toSigned d_val
  let am := toSigned am_val
  match comp with
  | 0b0101010 => some (wcast 0)                                    -- 0
  | 0b0111111 => some (wcast 1)                                    -- 1
  | 0b0111010 => some (wcast (-1))                                 -- -1
  | 0b0001100 => some (wcast d)                                    -- D
  | 0b0110000 => some (wcast am)                                   -- A
  | 0b1110000 => some (wcast am)                                   -- M
  | 0b0001101 => some (wcast (-d - 1))                             -- !D
  | 0b0110001 => some (wcast (-am - 1))                            -- !A
  | 0b1110001 => some (wcast (-am - 1))                            -- !M
  | 0b0001111 => some (wcast (-d))                                 -- -D
  | 0b0110011 => some (wcast (-am))                                -- -A
  | 0b1110011 => some (wcast (-am))                                -- -M
  | 0b0011111 => some (wcast (d + 1))                              -- D+1
  | 0b0110111 => some (wcast (am + 1))                             -- A+1
  | 0b1110111 => some (wcast (am + 1))                             -- M+1
  | 0b0001110 => some (wcast (d - 1))                              -- D-1
  | 0b0110010 => some (wcast (am - 1))                             -- A-1
  | 0b1110010 => some (wcast (am - 1))                             -- M-1
  | 0b0000010 => some (wcast (d + am))                             -- D+A
  | 0b1000010 => some (wcast (d + am))                             -- D+M
  | 0b0010011 => some (wcast (d - am))                             -- D-A
  | 0b1010011 => some (wcast (d - am))                             -- D-M
  | 0b0000111 => some (wcast (am - d))                             -- A-D
  | 0b1000111 => some (wcast (am - d))                             -- M-D
  | 0b0000000 => some ((d_val % 65536) &&& (am_val % 65536))       -- D&A
  | 0b1000000 => some ((d_val % 65536) &&& (am_val % 65536))       -- D&M
  | 0b0010101 => some ((d_val % 65536) ||| (am_val % 65536))       -- D|A
  | 0b1010101 => some ((d_val % 65536) ||| (am_val % 65536))       -- D|M
  | _ => none

/-- `CPUEngine::should_jump`: `j1`/`j2`/`j3` select `<0`, `=0`, `>0` on the
signed ALU output, with the `000`/`111` special cases first. -/
def should_jump (jump alu_output : Nat) : Bool :=
  if jump = 0 then false
  else if jump = 7 then true
  else
    let val := toSigned alu_output
    (decide (val < 0) && (jump &&& 0x4 != 0)) ||
    (decide (val = 0) && (jump &&& 0x2 != 0)) ||
    (decide (val > 0) && (jump &&& 0x1 != 0))

/-- `CPUEngine::execute_instruction`.  Returns the new engine and the C++
boolean (`false` = stop the run loop).  The breakpoint check is exactly the
source's `stats_.instructions_executed > 0 && breakpoints_.count(pc_)`. -/
def CPUEngine.execute_instruction (e : CPUEngine) : CPUEngine × Bool :=
  if e.pc ≥ e.memory.program_size then ({ e with state := .HALTED }, false)
  else if e.pause_requested then
    ({ e with pause_requested := false, state := .PAUSED,
              pause_reason := .USER_REQUEST }, false)
  else if e.stats.instructions_executed > 0 ∧ e.pc ∈ e.breakpoints then
    ({ e with state := .PAUSED, pause_reason := .BREAKPOINT }, false)
  else
    let raw := e.memory.rom e.pc
    if raw &&& 0x8000 = 0 then
      let e1 := { e with
        a_register := raw &&& 0x7FFF
        pc := (e.pc + 1) % 65536
        stats := { e.stats with
          a_instruction_count := e.stats.a_instruction_count + 1
          instructions_executed := e.stats.instructions_executed + 1 } }
      if e1.pc ≥ e1.memory.program_size then ({ e1 with state := .HALTED }, false)
      else (e1, true)
    else
      let comp_bits := (raw >>> 6) &&& 0x7F
      let dest_bits := (raw >>> 3) &&& 0x7
      let jump_bits := raw &&& 0x7
      let afterRead : Nat → CPUStats → CPUEngine × Bool := fun am_val stats1 =>
        (compute_alu comp_bits e.d_register am_val).elim
          ({ e with stats := stats1,
                    error_message := some (.invalidComp e.pc),
                    error_location := e.pc, state := .ERROR }, false)
          (fun alu_output =>
          let original_a := e.a_register
          let a' := if dest_bits &&& 0x4 != 0 then alu_output else e.a_register
          let d' := if dest_bits &&& 0x2 != 0 then alu_output else e.d_register
          let writeRes : Option CPUMemory :=
            if dest_bits &&& 0x1 != 0 then e.memory.write_ram original_a alu_output
            else some e.memory
          writeRes.elim
            ({ e with a_register := a', d_register := d', stats := stats1,
                      error_message := some (.writeOutOfBounds original_a),
                      error_location := e.pc, state := .ERROR }, false)
            (fun mem1 =>
            let stats2 :=
              if dest_bits &&& 0x1 != 0 then
                { stats1 with memory_writes := stats1.memory_writes + 1 }
              else stats1
            let jumped := should_jump jump_bits alu_output
            let pc' := if jumped then a' else (e.pc + 1) % 65536
            let stats3 :=
              if jumped then { stats2 with jump_count := stats2.jump_count + 1 }
              else stats2
            let stats4 := { stats3 with
              c_instruction_count := stats3.c_instruction_count + 1
              instructions_executed := stats3.instructions_executed + 1 }
            let e1 := { e with memory := mem1, a_register := a', d_register := d',
                               pc := pc', stats := stats4 }
            if e1.pc ≥ e1.memory.program_size then ({ e1 with state := .HALTED }, false)
            else (e1, true)))
      if comp_bits &&& 0x40 != 0 then
        (e.memory.read_ram e.a_register).elim
          ({ e with error_message := some (.readOutOfBounds e.a_register),
                    error_location := e.pc, state := .ERROR }, false)
          (fun v =>
            afterRead v { e.stats with memory_reads := e.stats.memory_reads + 1 })
      else afterRead e.a_register e.stats

/-- The `while (state_ == RUNNING)` loop shared by `run` and `run_for`
(for `run`, `fuel` only bounds the recursion; every theorem about a
concrete run supplies enough fuel for the loop to exit by itself). -/
def CPUEngine.runLoop : Nat → CPUEngine → CPUEngine
  | 0, e => e
  | fuel + 1, e =>
    if e.state = .RUNNING then
      let p := e.execute_instruction
      if p.2 then CPUEngine.runLoop fuel p.1 else p.1
    else e

/-- `CPUEngine::run`. -/
def CPUEngine.run (fuel : Nat) (e : CPUEngine) : CPUEngine :=
  if e.state = .READY ∨ e.state = .PAUSED then
    CPUEngine.runLoop fuel
      { e with state := .RUNNING, pause_reason := .NONE, pause_requested := false }
  else e

/-- Counting loop of `CPUEngine::run_for`. -/
def CPUEngine.runForLoop : Nat → CPUEngine → CPUEngine
  | 0, e => e
  | count + 1, e =>
    if e.state = .RUNNING then
      let p := e.execute_instruction
      if p.2 then CPUEngine.runForLoop count p.1 else p.1
    else e

/-- `CPUEngine::run_for`. -/
def CPUEngine.run_for (e : CPUEngine) (max_instructions : Nat) : CPUEngine :=
  if e.state = .READY ∨ e.state = .PAUSED then
    let e1 := CPUEngine.runForLoop max_instructions
      { e with state := .RUNNING, pause_reason := .NONE, pause_requested := false }
    if e1.state = .RUNNING then
      { e1 with state := .PAUSED, pause_reason := .USER_REQUEST }
    else e1
  else e

/-- `CPUEngine::step` (note: unlike `run`, it does not clear
`pause_requested_`). -/
def CPUEngine.step (e : CPUEngine) : CPUEngine :=
  if e.state = .READY ∨ e.state = .PAUSED then
    let p := CPUEngine.execute_instruction
      { e with state := .RUNNING, pause_reason := .NONE }
    if p.1.state = .RUNNING then
      { p.1 with state := .PAUSED, pause_reason := .STEP_COMPLETE }
    else p.1
  else e

/-- `CPUEngine::load` (pre-decoded words); `none` is the propagated ROM
capacity error. -/
def CPUEngine.load (e : CPUEngine) (instructions : List Nat) : Option CPUEngine :=
  match e.memory.load_rom instructions with
  | none => none
  | some mem => some { e with memory := mem, state := .READY, pc := 0,
                              a_register := 0, d_register := 0,
                              stats := CPUStats.reset }

/-- `CPUEngine::reset`. -/
def CPUEngine.reset (e : CPUEngine) : CPUEngine :=
  { e with memory := CPUMemory.reset, a_register := 0, d_register := 0,
           pc := 0, state := .READY, pause_reason := .NONE,
           pause_requested := false, stats := CPUStats.reset,
           error_message := none, error_location := 0 }

/-! ## VM commands, program, segment access (`vm_parser.hpp`, `vm_memory.cpp`)

The `std::variant` command becomes an inductive; the `source_line` debug
fields and the parser are not needed by any claim and are omitted.  The
`unordered_map`s become association lists consulted with `List.lookup`. -/

inductive SegmentType where
  | LOCAL
  | ARGUMENT
  | THIS
  | THAT
  | TEMP
  | STATIC
  | POINTER
  | CONSTANT
deriving DecidableEq, Repr

inductive ArithmeticOp where
  | ADD
  | SUB
  | NEG
  | EQ
  | GT
  | LT
  | AND
  | OR
  | NOT
deriving DecidableEq, Repr

inductive VMCommand where
  | arithmetic (operation : ArithmeticOp)
  | push (segment : SegmentType) (index : Nat) (file_name : String)
  | pop (segment : SegmentType) (index : Nat) (file_name : String)
  | label (label_name : String)
  | goto (label_name : String)
  | if_goto (label_name : String)
  | function (function_name : String) (num_locals : Nat)
  | call (function_name : String) (num_args : Nat)
  | ret
deriving DecidableEq, Repr

structure VMProgram where
  commands : List VMCommand
  label_positions : List (String × Nat)
  function_entry_points : List (String × Nat)
  source_files : List String
deriving DecidableEq, Repr

/-- `VMMemory::calculate_address`; `none` covers the thrown temp/pointer
bounds errors, the unallocated-static error, and the internal error for
`CONSTANT`.  The returned C++ `Address` is a `uint16_t`, hence the moduli. -/
def VMMemory.calculate_address (m : VMMemory) (segment : SegmentType)
    (index : Nat) (file_name : String) : Option Nat :=
  match segment with
  | .LOCAL => some ((m.ram VMAddress.LCL + index) % 65536)
  | .ARGUMENT => some ((m.ram VMAddress.ARG + index) % 65536)
  | .THIS => some ((m.ram VMAddress.THIS + index) % 65536)
  | .THAT => some ((m.ram VMAddress.THAT + index) % 65536)
  | .TEMP =>
    if index ≥ VMAddress.TEMP_SIZE then none
    else some (VMAddress.TEMP_BASE + index)
  | .STATIC =>
    match m.static_bases.lookup file_name with
    | some base => some ((base + index) % 65536)
    | none => none
  | .POINTER =>
    if index > 1 then none else some (VMAddress.THIS + index)
  | .CONSTANT => none

/-- `VMMemory::read_segment` (the C++ `ram_[addr]` read is unchecked, so the
model reads the total RAM function directly). -/
def VMMemory.read_segment (m : VMMemory) (segment : SegmentType) (index : Nat)
    (file_name : String) : Option Nat :=
  if segment = .CONSTANT then some index
  else (m.calculate_address segment index file_name).map m.ram

/-- `VMMemory::write_segment`; writing `CONSTANT` is the thrown
`RuntimeError`. -/
def VMMemory.write_segment (m : VMMemory) (segment : SegmentType) (index : Nat)
    (value : Nat) (file_name : String) : Option VMMemory :=
  if segment = .CONSTANT then none
  else (m.calculate_address segment index file_name).map
    (fun addr => { m with ram := updateFn m.ram addr value })

/-- `VMMemory::get_static_base`: look up or allocate a 16-word static range;
`none` is the exhaustion `RuntimeError` when the cursor reaches the stack
region. -/
def VMMemory.get_static_base (m : VMMemory) (file_name : String) :
    Option (Nat × VMMemory) :=
  match m.static_bases.lookup file_name with
  | some base => some (base, m)
  | none =>
    if m.next_static_address ≥ VMAddress.STACK_BASE then none
    else some (m.next_static_address,
      { m with static_bases := (file_name, m.next_static_address) :: m.static_bases
             , next_static_address := m.next_static_address + 16 })

/-- `VMMemory::current_function`. -/
def VMMemory.current_function (m : VMMemory) : String :=
  match m.call_stack with
  | [] => ""
  | frame :: _ => frame.function_name

/-! ## VM engine (`src/core/vm/vm_engine.cpp`)

Errors thrown inside one command short-circuit via `Except VMEngine`, the
error payload being the engine with whatever partial memory mutations the
C++ object would retain; the catch block of `execute_command` then records
the error (`error_set`/`error_location` model the `error_message_` /
`error_location_` members) and moves to ERROR. -/

structure VMStats where
  instructions_executed : Nat
  push_count : Nat
  pop_count : Nat
  arithmetic_count : Nat
  call_count : Nat
  return_count : Nat
deriving DecidableEq, Repr

def VMStats.reset : VMStats := ⟨0, 0, 0, 0, 0, 0⟩

inductive VMState where
  | READY
  | RUNNING
  | PAUSED
  | HALTED
  | ERROR
deriving DecidableEq, Repr

inductive PauseReason where
  | NONE
  | STEP_COMPLETE
  | BREAKPOINT
  | FUNCTION_ENTRY
  | FUNCTION_EXIT
  | USER_REQUEST
deriving DecidableEq, Repr

structure VMEngine where
  program : VMProgram
  memory : VMMemory
  pc : Nat
  state : VMState
  pause_reason : PauseReason
  pause_requested : Bool
  stats : VMStats
  entry_point : String
  breakpoints : List Nat
  error_set : Bool
  error_location : Nat

/-- `VMEngine::lookup_label`: scoped name first, then the raw name; `none`
is the undefined-label `RuntimeError`. -/
def VMEngine.lookup_label (e : VMEngine) (label_name : String) : Option Nat :=
  let current_func := e.memory.current_function
  match (if current_func ≠ "" then
           e.program.label_positions.lookup (current_func ++ "$" ++ label_name)
         else none) with
  | some idx => some idx
  | none => e.program.label_positions.lookup label_name

/-- `VMEngine::lookup_function`; `none` is the undefined-function
`RuntimeError`. -/
def VMEngine.lookup_function (e : VMEngine) (function_name : String) : Option Nat :=
  e.program.function_entry_points.lookup function_name

/-- Pop y, pop x, push `f x y` — the shared shape of the binary cases of
`VMEngine::execute_arithmetic`. -/
def VMEngine.binaryOp (e : VMEngine) (f : Nat → Nat → Nat) : Except VMEngine VMEngine :=
  match e.memory.pop with
  | none => .error e
  | some (y, m1) =>
    match m1.pop with
    | none => .error { e with memory := m1 }
    | some (x, m2) =>
      match m2.push (f x y) with
      | none => .error { e with memory := m2 }
      | some m3 => .ok { e with memory := m3 }

/-- Pop y, push `f y` — the unary cases of `VMEngine::execute_arithmetic`. -/
def VMEngine.unaryOp (e : VMEngine) (f : Nat → Nat) : Except VMEngine VMEngine :=
  match e.memory.pop with
  | none => .error e
  | some (y, m1) =>
    match m1.push (f y) with
    | none => .error { e with memory := m1 }
    | some m2 => .ok { e with memory := m2 }

/-- `VMEngine::execute_arithmetic`: add/sub/neg wrap as signed 16-bit,
comparisons are signed (eq compares raw words), and/or/not are bitwise;
true pushes `0xFFFF`.  `pc_++` runs after the switch. -/
def VMEngine.execute_arithmetic (e : VMEngine) (operation : ArithmeticOp) :
    Except VMEngine VMEngine :=
  let e0 := { e with stats :=
    { e.stats with arithmetic_count := e.stats.arithmetic_count + 1 } }
  let r : Except VMEngine VMEngine :=
    match operation with
    | .ADD => e0.binaryOp (fun x y => wcast (toSigned x + toSigned y))
    | .SUB => e0.binaryOp (fun x y => wcast (toSigned x - toSigned y))
    | .NEG => e0.unaryOp (fun y => wcast (-(toSigned y)))
    | .EQ => e0.binaryOp (fun x y => if x = y then 0xFFFF else 0)
    | .GT => e0.binaryOp (fun x y => if toSigned x > toSigned y then 0xFFFF else 0)
    | .LT => e0.binaryOp (fun x y => if toSigned x < toSigned y then 0xFFFF else 0)
    | .AND => e0.binaryOp (fun x y => x &&& y)
    | .OR => e0.binaryOp (fun x y => x ||| y)
    | .NOT => e0.unaryOp (fun y => wcast (-(y : Int) - 1))
  match r with
  | .error x => .error x
  | .ok e1 => .ok { e1 with pc := e1.pc + 1 }

/-- `VMEngine::execute_push`. -/
def VMEngine.execute_push (e : VMEngine) (segment : SegmentType) (index : Nat)
    (file_name : String) : Except VMEngine VMEngine :=
  let e0 := { e with stats := { e.stats with push_count := e.stats.push_count + 1 } }
  match e0.memory.read_segment segment index file_name with
  | none => .error e0
  | some value =>
    match e0.memory.push value with
    | none => .error e0
    | some m1 => .ok { e0 with memory := m1, pc := e0.pc + 1 }

/-- `VMEngine::execute_pop`. -/
def VMEngine.execute_pop (e : VMEngine) (segment : SegmentType) (index : Nat)
    (file_name : String) : Except VMEngine VMEngine :=
  let e0 := { e with stats := { e.stats with pop_count := e.stats.pop_count + 1 } }
  match e0.memory.pop with
  | none => .error e0
  | some (value, m1) =>
    match m1.write_segment segment index value file_name with
    | none => .error { e0 with memory := m1 }
    | some m2 => .ok { e0 with memory := m2, pc := e0.pc + 1 }

/-- `VMEngine::execute_goto`. -/
def VMEngine.execute_goto (e : VMEngine) (label_name : String) :
    Except VMEngine VMEngine :=
  match e.lookup_label label_name with
  | none => .error e
  | some target => .ok { e with pc := target }

/-- `VMEngine::execute_if_goto`. -/
def VMEngine.execute_if_goto (e : VMEngine) (label_name : String) :
    Except VMEngine VMEngine :=
  match e.memory.pop with
  | none => .error e
  | some (condition, m1) =>
    if condition ≠ 0 then
      match e.lookup_label label_name with
      | none => .error { e with memory := m1 }
      | some target => .ok { e with memory := m1, pc := target }
    else .ok { e with memory := m1, pc := e.pc + 1 }

/-- `VMEngine::execute_call`: the callee's local count is read from its
`function` command, then `push_frame` runs and the engine jumps. -/
def VMEngine.execute_call (e : VMEngine) (function_name : String)
    (num_args : Nat) : Except VMEngine VMEngine :=
  let e0 := { e with stats := { e.stats with call_count := e.stats.call_count + 1 } }
  match e0.lookup_function function_name with
  | none => .error e0
  | some function_pc =>
    let return_address := e0.pc + 1
    let num_locals :=
      match e0.program.commands.get? function_pc with
      | some (.function _ n) => n
      | _ => 0
    let m1 := e0.memory.push_frame return_address function_name num_args num_locals
    .ok { e0 with memory := m1, pc := function_pc }

/-- `VMEngine::execute_return`: pop the return value, pop the frame; a
returned address of 0 halts (bootstrap return) without touching `pc_`. -/
def VMEngine.execute_return (e : VMEngine) : Except VMEngine VMEngine :=
  let e0 := { e with stats := { e.stats with return_count := e.stats.return_count + 1 } }
  match e0.memory.pop with
  | none => .error e0
  | some (return_value, m1) =>
    match m1.pop_frame return_value with
    | none => .error { e0 with memory := m1 }
    | some (return_address, m2) =>
      if return_address = 0 then .ok { e0 with memory := m2, state := .HALTED }
      else .ok { e0 with memory := m2, pc := return_address }

/-- `VMEngine::execute_command`: halt check (`pc` past the program), pause
request, the `instructions_executed > 0` breakpoint check, then the
`std::visit` dispatch inside try/catch. -/
def VMEngine.execute_command (e : VMEngine) : VMEngine × Bool :=
  match e.program.commands.get? e.pc with
  | none => ({ e with state := .HALTED }, false)
  | some cmd =>
    if e.pause_requested then
      ({ e with pause_requested := false, state := .PAUSED,
                pause_reason := .USER_REQUEST }, false)
    else if e.stats.instructions_executed > 0 ∧ e.pc ∈ e.breakpoints then
      ({ e with state := .PAUSED, pause_reason := .BREAKPOINT }, false)
    else
      let r : Except VMEngine VMEngine :=
        match cmd with
        | .arithmetic operation => e.execute_arithmetic operation
        | .push segment index file_name => e.execute_push segment index file_name
        | .pop segment index file_name => e.execute_pop segment index file_name
        | .label _ => .ok { e with pc := e.pc + 1 }
        | .goto label_name => e.execute_goto label_name
        | .if_goto label_name => e.execute_if_goto label_name
        | .function _ _ => .ok { e with pc := e.pc + 1 }
        | .call function_name num_args => e.execute_call function_name num_args
        | .ret => e.execute_return
      match r with
      | .error e1 =>
        ({ e1 with error_set := true, error_location := e.pc, state := .ERROR }, false)
      | .ok e1 =>
        ({ e1 with stats := { e1.stats with
             instructions_executed := e1.stats.instructions_executed + 1 } }, true)

/-- Model of `get_file_basename` (`std::filesystem::path::stem`): strip the
directory part at the last `/` and the extension at the last `.`.  Only
used while pre-allocating static bases; no claim evaluates it on a path
where the `std::filesystem` corner cases (`".."` etc.) would differ. -/
def get_file_basename (file_path : String) : String :=
  let name := ((file_path.splitOn "/").getLastD "").toList
  let r := name.reverse
  match r.findIdx? (fun c => c = '.') with
  | some i => if i + 1 = name.length then name.asString
              else ((r.drop (i + 1)).reverse).asString
  | none => name.asString

/-- Static pre-allocation loop at the end of
`VMEngine::initialize_execution`. -/
def preallocStatics : VMMemory → List String → Option VMMemory
  | mem, [] => some mem
  | mem, f :: rest =>
    match mem.get_static_base (get_file_basename f) with
    | none => none
    | some (_, m1) => preallocStatics m1 rest

/-- `VMEngine::initialize_execution`.  `none` models the static-exhaustion
`RuntimeError` escaping the member (it is thrown outside any catch). -/
def VMEngine.initialize_execution (e : VMEngine) : Option VMEngine :=
  let mem0 := VMMemory.reset
  let entry :=
    if e.entry_point ≠ "" then e.entry_point
    else if (e.program.function_entry_points.lookup "Sys.init").isSome then "Sys.init"
    else if (e.program.function_entry_points.lookup "Main.main").isSome then "Main.main"
    else ""
  let afterEntry : Option (VMMemory × Nat) :=
    if entry ≠ "" then
      match e.program.function_entry_points.lookup entry with
      | some idx =>
        let num_locals :=
          match e.program.commands.get? idx with
          | some (.function _ n) => n
          | _ => 0
        some (mem0.push_frame 0 entry 0 num_locals, idx)
      | none => none
    else some (mem0, 0)
  match afterEntry with
  | none =>
    some { e with memory := mem0, error_set := true, error_location := e.pc,
                  state := .ERROR }
  | some (mem1, pc1) =>
    match preallocStatics mem1 e.program.source_files with
    | none => none
    | some mem2 =>
      some { e with memory := mem2, pc := pc1, state := .PAUSED,
                    pause_reason := .NONE }

/-- The `while (state_ == RUNNING)` loop of `VMEngine::run`. -/
def VMEngine.runLoop : Nat → VMEngine → VMEngine
  | 0, e => e
  | fuel + 1, e =>
    if e.state = .RUNNING then
      let p := e.execute_command
      if p.2 then VMEngine.runLoop fuel p.1 else p.1
    else e

/-- `VMEngine::run`.  The outer `Option` carries an exception escaping
`initialize_execution`. -/
def VMEngine.run (fuel : Nat) (e : VMEngine) : Option VMEngine :=
  match (if e.state = .READY then e.initialize_execution else some e) with
  | none => none
  | some e1 =>
    if e1.state ≠ .PAUSED ∧ e1.state ≠ .RUNNING then some e1
    else some (VMEngine.runLoop fuel
      { e1 with state := .RUNNING, pause_reason := .NONE, pause_requested := false })

/-- Counting loop of `VMEngine::run_for`. -/
def VMEngine.runForLoop : Nat → VMEngine → VMEngine
  | 0, e => e
  | count + 1, e =>
    if e.state = .RUNNING then
      let p := e.execute_command
      if p.2 then VMEngine.runForLoop count p.1 else p.1
    else e

/-- `VMEngine::run_for`. -/
def VMEngine.run_for (e : VMEngine) (max_instructions : Nat) : Option VMEngine :=
  match (if e.state = .READY then e.initialize_execution else some e) with
  | none => none
  | some e1 =>
    if e1.state ≠ .PAUSED ∧ e1.state ≠ .RUNNING then some e1
    else
      let e2 := VMEngine.runForLoop max_instructions
        { e1 with state := .RUNNING, pause_reason := .NONE, pause_requested := false }
      if e2.state = .RUNNING then
        some { e2 with state := .PAUSED, pause_reason := .USER_REQUEST }
      else some e2

/-- `VMEngine::step` (does not clear `pause_requested_`). -/
def VMEngine.step (e : VMEngine) : Option VMEngine :=
  match (if e.state = .READY then e.initialize_execution else some e) with
  | none => none
  | some e1 =>
    if e1.state ≠ .PAUSED ∧ e1.state ≠ .RUNNING then some e1
    else
      let p := VMEngine.execute_command { e1 with state := .RUNNING, pause_reason := .NONE }
      if p.1.state = .RUNNING then
        some { p.1 with state := .PAUSED, pause_reason := .STEP_COMPLETE }
      else some p.1

/-- Loop of `VMEngine::step_out`: run until the call depth drops to the
target. -/
def VMEngine.stepOutLoop (target_depth : Nat) : Nat → VMEngine → VMEngine
  | 0, e => e
  | fuel + 1, e =>
    if e.state = .RUNNING then
      let p := e.execute_command
      if p.2 then
        if p.1.memory.call_stack.length ≤ target_depth then
          { p.1 with state := .PAUSED, pause_reason := .FUNCTION_EXIT }
        else VMEngine.stepOutLoop target_depth fuel p.1
      else p.1
    else e

/-- `VMEngine::step_out`. -/
def VMEngine.step_out (fuel : Nat) (e : VMEngine) : Option VMEngine :=
  match (if e.state = .READY then e.initialize_execution else some e) with
  | none => none
  | some e1 =>
    if e1.state ≠ .PAUSED ∧ e1.state ≠ .RUNNING then some e1
    else
      let target_depth := e1.memory.call_stack.length - 1
      some (VMEngine.stepOutLoop target_depth fuel
        { e1 with state := .RUNNING, pause_reason := .NONE, pause_requested := false })

/-- Inner loop of `VMEngine::step_over`: keep running while the call depth
exceeds the starting depth. -/
def VMEngine.stepOverLoop (current_depth : Nat) : Nat → VMEngine → VMEngine
  | 0, e => e
  | fuel + 1, e =>
    if e.state = .RUNNING ∧ e.memory.call_stack.length > current_depth then
      let p := e.execute_command
      if p.2 then VMEngine.stepOverLoop current_depth fuel p.1 else p.1
    else e

/-- `VMEngine::step_over`. -/
def VMEngine.step_over (fuel : Nat) (e : VMEngine) : Option VMEngine :=
  match (if e.state = .READY then e.initialize_execution else some e) with
  | none => none
  | some e1 =>
    if e1.state ≠ .PAUSED ∧ e1.state ≠ .RUNNING then some e1
    else
      let current_depth := e1.memory.call_stack.length
      let e2 := { e1 with state := .RUNNING, pause_reason := .NONE,
                          pause_requested := false }
      let p := e2.execute_command
      if ¬p.2 then some p.1
      else
        let e3 := VMEngine.stepOverLoop current_depth fuel p.1
        if e3.state = .RUNNING then
          some { e3 with state := .PAUSED, pause_reason := .STEP_COMPLETE }
        else some e3

/-- `VMEngine::reset`. -/
def VMEngine.reset (e : VMEngine) : VMEngine :=
  { e with memory := VMMemory.reset, pc := 0, state := .READY,
           pause_reason := .NONE, pause_requested := false,
           stats := VMStats.reset, error_set := false, error_location := 0 }

/-! ## HDL chip wiring and evaluation order (`HDLChip` implementation)

Only the data feeding `HDLChip::compute_eval_order` is modelled: the wire
mappings that `build_wiring` collects, and the Kahn topological sort with
its silent fall-back to source order.  The resolver is abstracted to the
input-port lists of the sub-chips (`subInputs`), which is all
`build_wiring` consults to classify a connection; pin values and widths do
not influence the mapping lists. -/

structure PinRef where
  name : String
  lo : Int
  hi : Int
deriving DecidableEq, Repr

structure HDLConnection where
  internal : PinRef
  external : PinRef
deriving DecidableEq, Repr

structure HDLPart where
  chip_name : String
  connections : List HDLConnection
  source_line : Nat
deriving DecidableEq, Repr

structure WireMapping where
  part_index : Nat
  part_pin : String
  part_lo : Int
  part_hi : Int
  chip_pin : String
  chip_lo : Int
  chip_hi : Int
  is_input : Bool
deriving DecidableEq, Repr

/-- One connection's `WireMapping`, as filled in by `build_wiring`. -/
def connMapping (pi : Nat) (conn : HDLConnection) (is_input : Bool) : WireMapping :=
  { part_index := pi
    part_pin := conn.internal.name
    part_lo := conn.internal.lo
    part_hi := conn.internal.hi
    chip_pin := conn.external.name
    chip_lo := conn.external.lo
    chip_hi := conn.external.hi
    is_input := is_input }

/-- Connection loop of `build_wiring` for one part: `true`/`false`
constants always go to the input mappings, everything else is classified by
whether the internal pin is an input port of the sub-chip. -/
def buildPartMappings (pi : Nat) (part : HDLPart) (subInputs : String → List String) :
    List WireMapping × List WireMapping :=
  part.connections.foldl
    (fun acc conn =>
      let is_part_input := (subInputs part.chip_name).contains conn.internal.name
      if conn.external.name = "true" ∨ conn.external.name = "false" then
        (acc.1 ++ [connMapping pi conn true], acc.2)
      else if is_part_input then
        (acc.1 ++ [connMapping pi conn true], acc.2)
      else
        (acc.1, acc.2 ++ [connMapping pi conn false]))
    ([], [])

/-- The mapping lists `build_wiring` accumulates over all parts (in part
order, part index = position). -/
def build_wiring_mappings (parts : List HDLPart) (subInputs : String → List String) :
    List WireMapping × List WireMapping :=
  parts.enum.foldl
    (fun acc x =>
      let p := buildPartMappings x.1 x.2 subInputs
      (acc.1 ++ p.1, acc.2 ++ p.2))
    ([], [])

/-- Neighbour loop of Kahn's algorithm: `--in_degree[v] == 0` pushes `v`.
The C++ counter is a `size_t`, so only a decrement from exactly 1 can reach
0 (an underflow wraps to a huge value); `deg v = 1` captures that test. -/
def processAdj : List Nat → List Nat → (Nat → Nat) → (List Nat × (Nat → Nat))
  | [], q, deg => (q, deg)
  | v :: vs, q, deg =>
    processAdj vs (if deg v = 1 then q ++ [v] else q) (updateFn deg v (deg v - 1))

/-- The `while (!q.empty())` loop of Kahn's algorithm (`q` is a FIFO:
head = front, append = push).  `fuel` only bounds the recursion — every
iteration pops one queue entry, entries are enqueued at most once each (see
the invariant lemmas below), so `fuel = n + 1` is never exhausted on the
graphs `compute_eval_order` builds. -/
def kahnLoop (adj : Nat → List Nat) : Nat → List Nat → List Nat → (Nat → Nat) → List Nat
  | 0, _, order, _ => order
  | _ + 1, [], order, _ => order
  | fuel + 1, u :: q, order, deg =>
    let s := processAdj (adj u) q deg
    kahnLoop adj fuel s.1 (order ++ [u]) s.2

/-- Internal wires a part reads, per `compute_eval_order`'s construction of
`part_inputs`: wires that are neither constants nor chip ports.  The C++
`std::set` dedups; `List.dedup` keeps first occurrences instead of sorted
order, which affects neither the edge set nor the fall-back. -/
def wiresRead (input_mappings : List WireMapping)
    (chipInputs chipOutputs : List String) (b : Nat) : List String :=
  ((input_mappings.filter (fun m =>
      m.part_index == b && m.chip_pin != "true" && m.chip_pin != "false" &&
      !(chipInputs.contains m.chip_pin) && !(chipOutputs.contains m.chip_pin))).map
    (fun m => m.chip_pin)).dedup

/-- Does part `a` write wire `w` (membership in `part_outputs[a]`)? -/
def partWrites (output_mappings : List WireMapping) (a : Nat) (w : String) : Bool :=
  output_mappings.any (fun m => m.part_index == a && m.chip_pin == w)

/-- The dependency edges `a → b` (`a` writes a wire `b` reads, `a ≠ b`),
enumerated in the C++ loop order (`b`, then wire, then `a`).  `adj` and
`in_degree` below are exactly the per-edge `adj[a].push_back(b)` /
`in_degree[b]++` of the source. -/
def evalOrderEdges (n : Nat) (input_mappings output_mappings : List WireMapping)
    (chipInputs chipOutputs : List String) : List (Nat × Nat) :=
  (List.range n).flatMap (fun b =>
    (wiresRead input_mappings chipInputs chipOutputs b).flatMap (fun w =>
      ((List.range n).filter (fun a => a ≠ b ∧ partWrites output_mappings a w)).map
        (fun a => (a, b))))

/-- The adjacency lists of the dependency graph (`adj[a]`). -/
def evalOrderAdj (edges : List (Nat × Nat)) : Nat → List Nat :=
  fun a => (edges.filter (fun e2 => e2.1 = a)).map (fun e2 => e2.2)

/-- The in-degree table of the dependency graph (`in_degree[b]`). -/
def evalOrderDeg (edges : List (Nat × Nat)) : Nat → Nat :=
  fun b => (edges.filter (fun e2 => e2.2 = b)).length

/-- The order produced by the Kahn loop itself, before the fall-back test
(`eval_order_` right after the `while` loop). -/
def kahnOrderOf (n : Nat) (input_mappings output_mappings : List WireMapping)
    (chipInputs chipOutputs : List String) : List Nat :=
  let edges := evalOrderEdges n input_mappings output_mappings chipInputs chipOutputs
  let deg := evalOrderDeg edges
  let q0 := (List.range n).filter (fun i => deg i = 0)
  kahnLoop (evalOrderAdj edges) (n + 1) q0 [] deg

/-- `HDLChip::compute_eval_order`.  Kahn's algorithm over the wire
dependency graph; if the produced order does not cover all parts (a cycle),
the function silently falls back to source order `0, …, n-1` — no error
path exists (the return type is a plain list). -/
def compute_eval_order (n : Nat) (input_mappings output_mappings : List WireMapping)
    (chipInputs chipOutputs : List String) : List Nat :=
  if n = 0 then []
  else
    let order := kahnOrderOf n input_mappings output_mappings chipInputs chipOutputs
    if order.length ≠ n then List.range n else order

def cpuMemLoadedDemo : CPUMemory :=
  { CPUMemory.reset with screen_dirty := true
                       , rom := writeWordsAt (fun _ => 0) 0 [5, 10]
                       , program_size := 2 }

/-- Position of the first character that is neither `'0'` nor `'1'`. -/
def firstNon01 : List Char → Nat → Option (Nat × Char)
  | [], _ => none
  | c :: rest, i =>
    if c = '0' ∨ c = '1' then firstNon01 rest (i + 1) else some (i, c)

def vmOverflowState : VMMemory :=
  { VMMemory.reset with ram := updateFn VMMemory.reset.ram VMAddress.SP 2048 }

def cpuErrorEngine : CPUEngine :=
  { memory := CPUMemory.reset, a_register := 0, d_register := 0, pc := 4,
    state := .ERROR, pause_reason := .NONE, pause_requested := false,
    breakpoints := [], stats := CPUStats.reset,
    error_message := some (.invalidComp 4), error_location := 4 }

def vmErrorEngine : VMEngine :=
  { program := { commands := [], label_positions := [],
                 function_entry_points := [], source_files := [] }
    memory := VMMemory.reset, pc := 2, state := .ERROR, pause_reason := .NONE,
    pause_requested := false, stats := VMStats.reset, entry_point := "",
    breakpoints := [], error_set := true, error_location := 2 }

def cpuDemoEngine : CPUEngine :=
  { memory := { CPUMemory.reset with rom := writeWordsAt (fun _ => 0) 0 [0, 1, 2]
                                   , program_size := 3 }
    a_register := 0, d_register := 0, pc := 0, state := .READY,
    pause_reason := .NONE, pause_requested := false, breakpoints := [1],
    stats := CPUStats.reset, error_message := none, error_location := 0 }

def vmDemoEngine : VMEngine :=
  { program := { commands := [.label "a", .label "b", .label "c"]
               , label_positions := [("a", 0), ("b", 1), ("c", 2)]
               , function_entry_points := [], source_files := [] }
    memory := VMMemory.reset, pc := 0, state := .READY, pause_reason := .NONE,
    pause_requested := false, stats := VMStats.reset, entry_point := "",
    breakpoints := [1], error_set := false, error_location := 0 }

def vmDemoRun1 : VMEngine := (VMEngine.run 10 vmDemoEngine).getD vmDemoEngine

def vmDemoRun2 : VMEngine := (VMEngine.run 10 vmDemoRun1).getD vmDemoEngine

def cpuC4Engine : CPUEngine :=
  { memory := { CPUMemory.reset with rom := writeWordsAt (fun _ => 0) 0 [0b1111000010011000]
                                   , ram := updateFn (fun _ => 0) 100 9
                                   , program_size := 1 }
    a_register := 100, d_register := 7, pc := 0, state := .RUNNING,
    pause_reason := .NONE, pause_requested := false, breakpoints := [],
    stats := CPUStats.reset, error_message := none, error_location := 0 }

/-- Index of the first occurrence of `x` (the position of a part in the
evaluation order). -/
def posOf : List Nat → Nat → Nat
  | [], _ => 0
  | y :: ys, x => if y = x then 0 else posOf ys x + 1

/-- In-edges of `v` from parts not yet placed in `order`. -/
def degSpec (E : List (Nat × Nat)) (order : List Nat) (v : Nat) : Nat :=
  E.countP (fun e2 => decide (e2.2 = v) && decide (e2.1 ∉ order))

/-- The order respects every edge whose head it contains. -/
def OrdOK (E : List (Nat × Nat)) (order : List Nat) : Prop :=
  ∀ e ∈ E, e.2 ∈ order → e.1 ∈ order ∧ posOf order e.1 < posOf order e.2

/-- Number of edges `u → v` in the edge list. -/
def cntE (E : List (Nat × Nat)) (u v : Nat) : Nat :=
  E.countP (fun e2 => decide (e2.1 = u) && decide (e2.2 = v))

-- cyclic demo chip: two Not parts feeding each other
def cycParts : List HDLPart :=
  [ { chip_name := "Not"
      connections := [ ⟨⟨"a", -1, -1⟩, ⟨"w1", -1, -1⟩⟩,
                       ⟨⟨"out", -1, -1⟩, ⟨"w0", -1, -1⟩⟩ ]
      source_line := 3 }
  , { chip_name := "Not"
      connections := [ ⟨⟨"a", -1, -1⟩, ⟨"w0", -1, -1⟩⟩,
                       ⟨⟨"out", -1, -1⟩, ⟨"w1", -1, -1⟩⟩ ]
      source_line := 4 } ]

def cycSubInputs : String → List String := fun s => if s = "Not" then ["a"] else []

def cycM : List WireMapping × List WireMapping :=
  build_wiring_mappings cycParts cycSubInputs

-- acyclic demo chip: part 0 writes w0, part 1 reads it
def acyParts : List HDLPart :=
  [ { chip_name := "Not"
      connections := [ ⟨⟨"out", -1, -1⟩, ⟨"w0", -1, -1⟩⟩ ]
      source_line := 3 }
  , { chip_name := "Not"
      connections := [ ⟨⟨"a", -1, -1⟩, ⟨"w0", -1, -1⟩⟩ ]
      source_line := 4 } ]

def acyM : List WireMapping × List WireMapping :=
  build_wiring_mappings acyParts cycSubInputs

/-! ## Theorems for the claims -/

theorem wcast_of_lt {i : Int} (h0 : 0 ≤ i) (h1 : i < 65536) :
    (wcast i : Int) = i := by
  unfold wcast
  rw [Int.emod_eq_of_lt h0 h1]
  exact Int.toNat_of_nonneg h0

theorem wcast_ofNat_lt {n : Nat} (h : n < 65536) : wcast (n : Int) = n := by
  unfold wcast
  rw [Int.emod_eq_of_lt (by exact_mod_cast Nat.zero_le n) (by exact_mod_cast h)]
  simp

theorem updateFn_same (f : Nat → Nat) (a v : Nat) : updateFn f a v a = v := by
  simp [updateFn]

theorem updateFn_other (f : Nat → Nat) {a x : Nat} (v : Nat) (h : x ≠ a) :
    updateFn f a v x = f x := by
  simp [updateFn, h]

/-! ### C9 — decoder totality and bit 13/14 irrelevance -/

theorem and_two_pow_15_ne {w : Nat} (h : Nat.testBit w 15 = true) :
    ¬(w &&& 0x8000 = 0) := by
  have h2 : w &&& 2 ^ 15 = (Nat.testBit w 15).toNat * 2 ^ 15 := Nat.and_two_pow w 15
  have h3 : (0x8000 : Nat) = 2 ^ 15 := by norm_num
  rw [h3, h2, h]
  norm_num

/-- C9: `decode_instruction` is total by construction (it is a plain
function with no failure path, unlike `decode_instruction_checked`); every
word with bit 15 set decodes as a C-instruction, and bits 13 and 14 play no
role: two words with bit 15 set that agree on bits 0–12 (i.e. modulo 8192)
decode identically in every field. -/
theorem decode_instruction_bit15_c_and_bits_13_14_irrelevant :
    (∀ w, Nat.testBit w 15 = true →
      (decode_instruction w).type = .C_INSTRUCTION) ∧
    (∀ w₁ w₂, Nat.testBit w₁ 15 = true → Nat.testBit w₂ 15 = true →
      w₁ % 8192 = w₂ % 8192 → decode_instruction w₁ = decode_instruction w₂) := by
  constructor
  · intro w h
    simp [decode_instruction, and_two_pow_15_ne h]
  · intro w₁ w₂ h1 h2 hmod
    have e1 : (w₁ >>> 6) &&& 0x7F = (w₂ >>> 6) &&& 0x7F := by
      rw [Nat.shiftRight_eq_div_pow, Nat.shiftRight_eq_div_pow,
        show (0x7F : Nat) = 2 ^ 7 - 1 by norm_num,
        Nat.and_pow_two_sub_one_eq_mod, Nat.and_pow_two_sub_one_eq_mod]
      have : (2 : Nat) ^ 6 = 64 := by norm_num
      rw [this]
      have : (2 : Nat) ^ 7 = 128 := by norm_num
      rw [this]
      omega
    have e2 : (w₁ >>> 3) &&& 0x7 = (w₂ >>> 3) &&& 0x7 := by
      rw [Nat.shiftRight_eq_div_pow, Nat.shiftRight_eq_div_pow,
        show (0x7 : Nat) = 2 ^ 3 - 1 by norm_num,
        Nat.and_pow_two_sub_one_eq_mod, Nat.and_pow_two_sub_one_eq_mod]
      have : (2 : Nat) ^ 3 = 8 := by norm_num
      rw [this]
      omega
    have e3 : w₁ &&& 0x7 = w₂ &&& 0x7 := by
      rw [show (0x7 : Nat) = 2 ^ 3 - 1 by norm_num,
        Nat.and_pow_two_sub_one_eq_mod, Nat.and_pow_two_sub_one_eq_mod]
      have : (2 : Nat) ^ 3 = 8 := by norm_num
      rw [this]
      omega
    simp only [decode_instruction, if_neg (and_two_pow_15_ne h1),
      if_neg (and_two_pow_15_ne h2)]
    rw [e1, e2, e3]

/-- Witness for C9 at concrete inputs: `0x8ABC` and `0xEABC` differ exactly
in bits 13 and 14. -/
theorem decode_instruction_bit15_witness :
    Nat.testBit 0x8ABC 15 = true ∧ Nat.testBit 0xEABC 15 = true ∧
    0x8ABC % 8192 = 0xEABC % 8192 ∧
    (decode_instruction 0x8ABC).type = .C_INSTRUCTION ∧
    decode_instruction 0x8ABC = decode_instruction 0xEABC :=
  ⟨by decide, by decide, by decide,
   decode_instruction_bit15_c_and_bits_13_14_irrelevant.1 0x8ABC (by decide),
   decode_instruction_bit15_c_and_bits_13_14_irrelevant.2 0x8ABC 0xEABC
     (by decide) (by decide) (by decide)⟩

/-! ### C5 — ROM loads and the screen dirty flag -/

/-- Counterexample to C5 as stated: a successful `load_rom` into a memory
whose dirty flag is raised loads 2 instructions but leaves the dirty flag
`true` — neither ROM loader ever touches `screen_dirty_` (only `reset` and
`clear_screen_dirty` do). -/
theorem load_rom_keeps_dirty_flag_counterexample :
    (({ CPUMemory.reset with screen_dirty := true } : CPUMemory).load_rom [5, 10]).map
      (fun m2 => (m2.program_size, m2.screen_dirty)) = some (2, true) := by
  rfl

theorem load_rom_lines_size : ∀ (lines : List (List Char)) (rom : Nat → Nat)
    (ps ln : Nat) (rom' : Nat → Nat) (ps' : Nat),
    load_rom_lines rom ps lines ln = .ok (rom', ps') →
    ps' = ps + lines.countP (fun l => !(trimTrailing l).isEmpty)
  | [], rom, ps, ln, rom', ps', h => by
    simp [load_rom_lines] at h
    simp [h.2]
  | line :: rest, rom, ps, ln, rom', ps', h => by
    rw [load_rom_lines] at h
    by_cases hb : (trimTrailing line).isEmpty
    · rw [if_pos hb] at h
      have := load_rom_lines_size rest rom ps (ln + 1) rom' ps' h
      simp [List.countP_cons, hb, this]
    · rw [if_neg hb] at h
      by_cases hsz : ps ≥ CPUAddress.ROM_SIZE
      · rw [if_pos hsz] at h
        exact absurd h (by simp)
      · rw [if_neg hsz] at h
        cases hp : parse_binary_line (trimTrailing line) (ln + 1) with
        | error e => rw [hp] at h; exact absurd h (by simp)
        | ok w =>
          rw [hp] at h
          have := load_rom_lines_size rest (updateFn rom ps w) (ps + 1) (ln + 1) rom' ps' h
          simp [List.countP_cons, hb, this]
          omega

/-- C5 amended: a successful ROM load (either from pre-decoded words or
from binary text) sets `program_size` to the number of loaded instructions
(for text: the number of non-blank lines), and leaves the screen dirty
flag unchanged — it does not reset it to `false`. -/
theorem load_rom_sets_size_preserves_dirty :
    (∀ (m : CPUMemory) (instructions : List Nat) (m' : CPUMemory),
      m.load_rom instructions = some m' →
      m'.program_size = instructions.length ∧ m'.screen_dirty = m.screen_dirty) ∧
    (∀ (m : CPUMemory) (lines : List (List Char)) (m' : CPUMemory),
      m.load_rom_string lines = .ok m' →
      m'.program_size = lines.countP (fun l => !(trimTrailing l).isEmpty) ∧
      m'.screen_dirty = m.screen_dirty) := by
  constructor
  · intro m instructions m' h
    rw [CPUMemory.load_rom] at h
    by_cases hlen : instructions.length > CPUAddress.ROM_SIZE
    · rw [if_pos hlen] at h
      exact absurd h (by simp)
    · rw [if_neg hlen] at h
      cases h
      exact ⟨rfl, rfl⟩
  · intro m lines m' h
    rw [CPUMemory.load_rom_string] at h
    cases hl : load_rom_lines (fun _ => 0) 0 lines 0 with
    | error e => rw [hl] at h; exact absurd h (by simp)
    | ok p =>
      rw [hl] at h
      cases h
      have := load_rom_lines_size lines (fun _ => 0) 0 0 p.1 p.2 (by rw [hl])
      simpa using this


/-- Witness for the amended C5 at a concrete load. -/
theorem load_rom_sets_size_preserves_dirty_witness :
    ({ CPUMemory.reset with screen_dirty := true } : CPUMemory).load_rom [5, 10] =
      some cpuMemLoadedDemo ∧
    cpuMemLoadedDemo.program_size = 2 ∧ cpuMemLoadedDemo.screen_dirty = true := by
  have h : ({ CPUMemory.reset with screen_dirty := true } : CPUMemory).load_rom [5, 10] =
      some cpuMemLoadedDemo := rfl
  refine ⟨h, ?_, ?_⟩
  · have := (load_rom_sets_size_preserves_dirty.1 _ _ _ h).1
    simpa using this
  · have := (load_rom_sets_size_preserves_dirty.1 _ _ _ h).2
    simpa using this

/-! ### C6 — text ROM parsing and whitespace -/

/-- Counterexample to C6 as stated: only trailing whitespace is trimmed, so
a line with one leading space before 16 valid digits fails with a
length error (17 characters), not loaded as an instruction. -/
theorem load_rom_string_leading_space_counterexample :
    CPUMemory.reset.load_rom_string [" 0000000000000000".toList] =
      .error (.badLength 1 17) := by
  rfl


theorem parseBits_firstNon01 (n : Nat) : ∀ (cs : List Char) (i res j : Nat) (c : Char),
    firstNon01 cs i = some (j, c) →
    parseBits n cs i res = .error (.badChar n (j + 1) c)
  | [], i, res, j, c, h => by simp [firstNon01] at h
  | c' :: rest, i, res, j, c, h => by
    rw [firstNon01] at h
    by_cases h01 : c' = '0' ∨ c' = '1'
    · rw [if_pos h01] at h
      rw [parseBits]
      rcases h01 with h0 | h1
      · rw [if_neg (by simp [h0]), if_neg (by simp [h0])]
        exact parseBits_firstNon01 n rest (i + 1) res j c h
      · rw [if_pos h1]
        exact parseBits_firstNon01 n rest (i + 1) _ j c h
    · rw [if_neg h01] at h
      cases h
      rw [parseBits]
      push_neg at h01
      rw [if_neg h01.2, if_pos h01.1]

theorem dropWhile_append_of_forall {p : Char → Bool} :
    ∀ (l1 l2 : List Char), (∀ c ∈ l1, p c = true) →
    (l1 ++ l2).dropWhile p = l2.dropWhile p
  | [], l2, _ => rfl
  | c :: rest, l2, h => by
    simp only [List.cons_append, List.dropWhile_cons, h c (by simp), if_pos]
    exact dropWhile_append_of_forall rest l2 (fun x hx => h x (by simp [hx]))

/-- C6 amended: per line, only trailing whitespace (`'\r'`, `' '`, `'\t'`)
is ignored — a line with leading whitespace is not cleaned and fails the
16-character length check (with the length in the error).  Blank lines
(after trimming) are skipped.  A trimmed line of exactly 16 characters
containing a character other than `'0'`/`'1'` produces a parse error
carrying the line number, the first offending character, and its 1-based
position. -/
theorem load_rom_string_whitespace_and_errors :
    (∀ (line ws : List Char), (∀ c ∈ ws, c = '\r' ∨ c = ' ' ∨ c = '\t') →
      trimTrailing (line ++ ws) = trimTrailing line) ∧
    (∀ (rom : Nat → Nat) (ps : Nat) (line : List Char) (rest : List (List Char)) (ln : Nat),
      (trimTrailing line).isEmpty = true →
      load_rom_lines rom ps (line :: rest) ln = load_rom_lines rom ps rest (ln + 1)) ∧
    (∀ (line : List Char) (n : Nat), line.length ≠ 16 →
      parse_binary_line line n = .error (.badLength n line.length)) ∧
    (∀ (line : List Char) (n j : Nat) (c : Char), line.length = 16 →
      firstNon01 line 0 = some (j, c) →
      parse_binary_line line n = .error (.badChar n (j + 1) c)) := by
  refine ⟨?_, ?_, ?_, ?_⟩
  · intro line ws h
    unfold trimTrailing
    rw [List.reverse_append]
    rw [dropWhile_append_of_forall ws.reverse line.reverse]
    intro c hc
    rcases h c (by simpa using hc) with h1 | h1 | h1 <;> simp [h1]
  · intro rom ps line rest ln hb
    rw [load_rom_lines, if_pos hb]
  · intro line n h
    rw [parse_binary_line, if_pos h]
  · intro line n j c hlen h
    rw [parse_binary_line, if_neg (by omega)]
    exact parseBits_firstNon01 n line 0 0 j c h

/-- Witness for the amended C6 at concrete lines. -/
theorem load_rom_string_whitespace_and_errors_witness :
    trimTrailing ("01".toList ++ " \t\r".toList) = trimTrailing "01".toList ∧
    load_rom_lines (fun _ => 0) 0 [" \t".toList, "x".toList] 0 =
      load_rom_lines (fun _ => 0) 0 ["x".toList] 1 ∧
    parse_binary_line " 0000000000000000".toList 1 = .error (.badLength 1 17) ∧
    parse_binary_line "000000000000000x".toList 1 = .error (.badChar 1 16 'x') := by
  refine ⟨?_, ?_, ?_, ?_⟩
  · exact load_rom_string_whitespace_and_errors.1 "01".toList " \t\r".toList (by decide)
  · exact load_rom_string_whitespace_and_errors.2.1 (fun _ => 0) 0 " \t".toList
      ["x".toList] 0 (by decide)
  · exact load_rom_string_whitespace_and_errors.2.2.1 " 0000000000000000".toList 1
      (by decide)
  · exact load_rom_string_whitespace_and_errors.2.2.2 "000000000000000x".toList 1 15 'x'
      (by decide) (by decide)

/-! ### C3 — stack bounds: push/pop check, push_frame does not -/


/-- Counterexample to C3 as stated: from the legal boundary state
`SP = 2048 = STACK_MAX + 1`, `push_frame` (a `call` with no arguments and
no locals) writes its five saved words with no bounds check and leaves
`SP = 2053 > STACK_MAX + 1`; no runtime error is raised (`push_frame` has
no error path — its C++ body contains no check and its model is total). -/
theorem push_frame_overflows_counterexample :
    vmOverflowState.ram VMAddress.SP = 2048 ∧
    (vmOverflowState.push_frame 9 "g" 0 0).ram VMAddress.SP = 2053 ∧
    ¬(2053 ≤ VMAddress.STACK_MAX + 1) := by
  refine ⟨rfl, rfl, by decide⟩

/-- C3 amended: `push` raises a runtime error exactly when
`SP > STACK_MAX` (so a successful push keeps `SP ≤ STACK_MAX + 1`), and
`pop` raises one exactly when `SP ≤ STACK_BASE`; but `push_frame` performs
no bounds check at all — it always succeeds and moves SP to
`SP + 5 + n_locals` (mod `2^16`), even past `STACK_MAX + 1`. -/
theorem stack_bounds_checks :
    (∀ (m : VMMemory) (v : Nat), m.push v = none ↔ m.ram VMAddress.SP > VMAddress.STACK_MAX) ∧
    (∀ (m : VMMemory) (v : Nat) (m' : VMMemory), m.push v = some m' →
      m'.ram VMAddress.SP = m.ram VMAddress.SP + 1 ∧
      m.ram VMAddress.SP ≤ VMAddress.STACK_MAX) ∧
    (∀ m : VMMemory, m.pop = none ↔ m.ram VMAddress.SP ≤ VMAddress.STACK_BASE) ∧
    (∀ (m : VMMemory) (x : Nat) (m' : VMMemory), m.pop = some (x, m') →
      m'.ram VMAddress.SP = m.ram VMAddress.SP - 1 ∧
      m.ram VMAddress.SP > VMAddress.STACK_BASE) ∧
    (∀ (m : VMMemory) (ra : Nat) (fn : String) (na nl : Nat),
      (m.push_frame ra fn na nl).ram VMAddress.SP =
        (m.ram VMAddress.SP + 5 + nl) % 65536) := by
  refine ⟨?_, ?_, ?_, ?_, ?_⟩
  · intro m v
    rw [VMMemory.push]
    by_cases h : m.ram VMAddress.SP > VMAddress.STACK_MAX
    · simp [h]
    · simp [h]
  · intro m v m' h
    rw [VMMemory.push] at h
    by_cases hc : m.ram VMAddress.SP > VMAddress.STACK_MAX
    · rw [if_pos hc] at h; exact absurd h (by simp)
    · rw [if_neg hc] at h
      cases h
      refine ⟨?_, by omega⟩
      simp [updateFn_same]
  · intro m
    rw [VMMemory.pop]
    by_cases h : m.ram VMAddress.SP ≤ VMAddress.STACK_BASE
    · simp [h]
    · simp [h]
  · intro m x m' h
    rw [VMMemory.pop] at h
    by_cases hc : m.ram VMAddress.SP ≤ VMAddress.STACK_BASE
    · rw [if_pos hc] at h; exact absurd h (by simp)
    · rw [if_neg hc] at h
      cases h
      refine ⟨?_, by omega⟩
      simp [updateFn_same]
  · intro m ra fn na nl
    rw [VMMemory.push_frame]
    simp [updateFn_same]

/-- Witness for the amended C3 at concrete states. -/
theorem stack_bounds_checks_witness :
    VMMemory.reset.push 11 ≠ none ∧
    ((VMMemory.reset.push 11).getD VMMemory.reset).ram VMAddress.SP = 257 ∧
    VMMemory.reset.pop = none ∧
    (vmOverflowState.push_frame 9 "g" 0 0).ram VMAddress.SP = 2053 := by
  have h1 : VMMemory.reset.push 11 =
      some { VMMemory.reset with
               ram := updateFn (updateFn VMMemory.reset.ram 256 11) VMAddress.SP 257 } := rfl
  refine ⟨by rw [h1]; simp, ?_, ?_, ?_⟩
  · have := (stack_bounds_checks.2.1 VMMemory.reset 11 _ h1).1
    rw [h1]
    simpa using this
  · exact (stack_bounds_checks.2.2.1 VMMemory.reset).2 (by rfl)
  · have := stack_bounds_checks.2.2.2.2 vmOverflowState 9 "g" 0 0
    simpa using this

/-! ### C8 — ERROR state short-circuits run/step until reset -/

/-- C8: once an engine is in the ERROR state, every subsequent
`run`, `run_for`, `step` (and for the VM also `step_out`/`step_over`) call
returns with the engine unchanged — still ERROR, no instruction executed,
no statistics moved — and `reset()` is what returns it to READY. -/
theorem error_state_short_circuits :
    (∀ (fuel n : Nat) (e : CPUEngine), e.state = .ERROR →
      CPUEngine.run fuel e = e ∧ e.run_for n = e ∧ e.step = e ∧
      e.reset.state = .READY) ∧
    (∀ (fuel n : Nat) (e : VMEngine), e.state = .ERROR →
      VMEngine.run fuel e = some e ∧ e.run_for n = some e ∧ e.step = some e ∧
      VMEngine.step_out fuel e = some e ∧ VMEngine.step_over fuel e = some e ∧
      e.reset.state = .READY) := by
  constructor
  · intro fuel n e h
    refine ⟨?_, ?_, ?_, rfl⟩
    · rw [CPUEngine.run, if_neg (by simp [h])]
    · rw [CPUEngine.run_for, if_neg (by simp [h])]
    · rw [CPUEngine.step, if_neg (by simp [h])]
  · intro fuel n e h
    refine ⟨?_, ?_, ?_, ?_, ?_, rfl⟩
    · rw [VMEngine.run, if_neg (by simp [h])]
      simp [h]
    · rw [VMEngine.run_for, if_neg (by simp [h])]
      simp [h]
    · rw [VMEngine.step, if_neg (by simp [h])]
      simp [h]
    · rw [VMEngine.step_out, if_neg (by simp [h])]
      simp [h]
    · rw [VMEngine.step_over, if_neg (by simp [h])]
      simp [h]


/-- Witness for C8 at concrete ERROR engines. -/
theorem error_state_short_circuits_witness :
    CPUEngine.run 5 cpuErrorEngine = cpuErrorEngine ∧
    VMEngine.run 5 vmErrorEngine = some vmErrorEngine ∧
    cpuErrorEngine.reset.state = .READY ∧ vmErrorEngine.reset.state = .READY :=
  ⟨(error_state_short_circuits.1 5 0 cpuErrorEngine rfl).1,
   (error_state_short_circuits.2 5 0 vmErrorEngine rfl).1,
   (error_state_short_circuits.1 5 0 cpuErrorEngine rfl).2.2.2,
   (error_state_short_circuits.2 5 0 vmErrorEngine rfl).2.2.2.2.2⟩

/-! ### C2 — breakpoint re-check on resume (code bug)

The source comments say the breakpoint check is skipped "on first
instruction after run to avoid re-triggering on the same breakpoint", but
the implemented guard is `stats_.instructions_executed > 0` with a counter
that is cumulative across runs (it is reset only by `load`/`reset`).  On
the very first run the guard works; but after a breakpoint pause, resuming
`run()` finds the counter already positive and the same PC still in the
breakpoint set, so it re-trips immediately without executing anything. -/


/-- C2 demonstration (both engines): with a breakpoint at address 1, the
first `run` executes one instruction and pauses at PC 1 with reason
BREAKPOINT; resuming with a second `run` executes nothing (the instruction
counter stays at 1) and immediately re-trips the same breakpoint — the
opposite of the claimed resume behaviour. -/
theorem breakpoint_resume_retrips_demo :
    (CPUEngine.run 10 cpuDemoEngine).pc = 1 ∧
    (CPUEngine.run 10 cpuDemoEngine).state = .PAUSED ∧
    (CPUEngine.run 10 cpuDemoEngine).pause_reason = .BREAKPOINT ∧
    (CPUEngine.run 10 cpuDemoEngine).stats.instructions_executed = 1 ∧
    (CPUEngine.run 10 (CPUEngine.run 10 cpuDemoEngine)).pc = 1 ∧
    (CPUEngine.run 10 (CPUEngine.run 10 cpuDemoEngine)).state = .PAUSED ∧
    (CPUEngine.run 10 (CPUEngine.run 10 cpuDemoEngine)).pause_reason = .BREAKPOINT ∧
    (CPUEngine.run 10 (CPUEngine.run 10 cpuDemoEngine)).stats.instructions_executed = 1 ∧
    VMEngine.run 10 vmDemoEngine = some vmDemoRun1 ∧
    vmDemoRun1.pc = 1 ∧ vmDemoRun1.state = .PAUSED ∧
    vmDemoRun1.pause_reason = .BREAKPOINT ∧
    vmDemoRun1.stats.instructions_executed = 1 ∧
    VMEngine.run 10 vmDemoRun1 = some vmDemoRun2 ∧
    vmDemoRun2.pc = 1 ∧ vmDemoRun2.state = .PAUSED ∧
    vmDemoRun2.pause_reason = .BREAKPOINT ∧
    vmDemoRun2.stats.instructions_executed = 1 := by
  refine ⟨rfl, rfl, rfl, rfl, rfl, rfl, rfl, rfl, rfl, rfl, rfl, rfl, rfl, rfl,
    rfl, rfl, rfl, rfl⟩

/-! ### C10 — pixel get/set on both memories -/

theorem getBit_eq_testBit (w b : Nat) : ((w >>> b) &&& 1 != 0) = Nat.testBit w b := by
  rw [Nat.testBit, Nat.land_comm]

theorem setbit_get_same (w b : Nat) (hb : b < 16) (on_ : Bool) :
    (((if on_ then w ||| (1 <<< b) else w &&& (65535 ^^^ (1 <<< b))) >>> b) &&& 1 != 0)
      = on_ := by
  have h2 : (1 : Nat) <<< b = 2 ^ b := by rw [Nat.shiftLeft_eq, one_mul]
  have h65535 : (65535 : Nat) = 2 ^ 16 - 1 := by norm_num
  cases on_ with
  | true =>
    rw [if_pos rfl, getBit_eq_testBit, h2]
    simp [Nat.testBit_lor, Nat.testBit_two_pow]
  | false =>
    have hbit : Nat.testBit 65535 b = true := by
      rw [h65535, Nat.testBit_two_pow_sub_one]
      simp [hb]
    rw [if_neg (by simp), getBit_eq_testBit, h2]
    simp [Nat.testBit_land, Nat.testBit_xor, Nat.testBit_two_pow, hbit]

theorem setbit_get_other (w b b' : Nat) (hb' : b' < 16) (hne : b' ≠ b) (on_ : Bool) :
    (((if on_ then w ||| (1 <<< b) else w &&& (65535 ^^^ (1 <<< b))) >>> b') &&& 1 != 0)
      = ((w >>> b') &&& 1 != 0) := by
  have h2 : (1 : Nat) <<< b = 2 ^ b := by rw [Nat.shiftLeft_eq, one_mul]
  have h65535 : (65535 : Nat) = 2 ^ 16 - 1 := by norm_num
  have hne' : ¬(b = b') := fun h => hne h.symm
  cases on_ with
  | true =>
    rw [if_pos rfl, getBit_eq_testBit, getBit_eq_testBit, h2]
    simp [Nat.testBit_lor, Nat.testBit_two_pow, hne']
  | false =>
    have hbit : Nat.testBit 65535 b' = true := by
      rw [h65535, Nat.testBit_two_pow_sub_one]
      simp [hb']
    rw [if_neg (by simp), getBit_eq_testBit, getBit_eq_testBit, h2]
    simp [Nat.testBit_land, Nat.testBit_xor, Nat.testBit_two_pow, hbit, hne']

/-- C10: for both memory implementations, `set_pixel` followed by
`get_pixel` at the same in-range coordinates returns the written bit; every
other in-range pixel reads unchanged; out-of-range `set_pixel` changes
nothing and out-of-range `get_pixel` returns `false`. -/
theorem pixel_get_set_roundtrip :
    (∀ (m : CPUMemory) (x y : Int) (b : Bool),
      0 ≤ x → x < 512 → 0 ≤ y → y < 256 →
      (m.set_pixel x y b).get_pixel x y = b) ∧
    (∀ (m : CPUMemory) (x y x' y' : Int) (b : Bool),
      0 ≤ x → x < 512 → 0 ≤ y → y < 256 →
      0 ≤ x' → x' < 512 → 0 ≤ y' → y' < 256 → (x ≠ x' ∨ y ≠ y') →
      (m.set_pixel x y b).get_pixel x' y' = m.get_pixel x' y') ∧
    (∀ (m : CPUMemory) (x y : Int) (b : Bool),
      (x < 0 ∨ x ≥ 512 ∨ y < 0 ∨ y ≥ 256) → m.set_pixel x y b = m) ∧
    (∀ (m : CPUMemory) (x y : Int),
      (x < 0 ∨ x ≥ 512 ∨ y < 0 ∨ y ≥ 256) → m.get_pixel x y = false) ∧
    (∀ (m : VMMemory) (x y : Int) (b : Bool),
      0 ≤ x → x < 512 → 0 ≤ y → y < 256 →
      (m.set_pixel x y b).get_pixel x y = b) ∧
    (∀ (m : VMMemory) (x y x' y' : Int) (b : Bool),
      0 ≤ x → x < 512 → 0 ≤ y → y < 256 →
      0 ≤ x' → x' < 512 → 0 ≤ y' → y' < 256 → (x ≠ x' ∨ y ≠ y') →
      (m.set_pixel x y b).get_pixel x' y' = m.get_pixel x' y') ∧
    (∀ (m : VMMemory) (x y : Int) (b : Bool),
      (x < 0 ∨ x ≥ 512 ∨ y < 0 ∨ y ≥ 256) → m.set_pixel x y b = m) ∧
    (∀ (m : VMMemory) (x y : Int),
      (x < 0 ∨ x ≥ 512 ∨ y < 0 ∨ y ≥ 256) → m.get_pixel x y = false) := by
  refine ⟨?_, ?_, ?_, ?_, ?_, ?_, ?_, ?_⟩
  · intro m x y b h1 h2 h3 h4
    have hcond : ¬(x < 0 ∨ x ≥ 512 ∨ y < 0 ∨ y ≥ 256) := by omega
    simp only [CPUMemory.set_pixel, CPUMemory.get_pixel, if_neg hcond]
    rw [updateFn_same]
    exact setbit_get_same _ _ (Nat.mod_lt _ (by norm_num)) b
  · intro m x y x' y' b h1 h2 h3 h4 h5 h6 h7 h8 hne
    have hcond : ¬(x < 0 ∨ x ≥ 512 ∨ y < 0 ∨ y ≥ 256) := by omega
    have hcond' : ¬(x' < 0 ∨ x' ≥ 512 ∨ y' < 0 ∨ y' ≥ 256) := by omega
    simp only [CPUMemory.set_pixel, CPUMemory.get_pixel, if_neg hcond, if_neg hcond']
    by_cases haddr :
        CPUAddress.SCREEN_BASE + (y'.toNat * 32 + x'.toNat / 16) =
        CPUAddress.SCREEN_BASE + (y.toNat * 32 + x.toNat / 16)
    · rw [haddr, updateFn_same]
      refine setbit_get_other _ _ _ (Nat.mod_lt _ (by norm_num)) ?_ b
      simp only [CPUAddress.SCREEN_BASE] at haddr
      omega
    · rw [updateFn_other _ _ haddr]
  · intro m x y b h
    rw [CPUMemory.set_pixel, if_pos h]
  · intro m x y h
    rw [CPUMemory.get_pixel, if_pos h]
  · intro m x y b h1 h2 h3 h4
    have hcond : ¬(x < 0 ∨ x ≥ 512 ∨ y < 0 ∨ y ≥ 256) := by omega
    simp only [VMMemory.set_pixel, VMMemory.get_pixel, if_neg hcond]
    rw [updateFn_same]
    exact setbit_get_same _ _ (Nat.mod_lt _ (by norm_num)) b
  · intro m x y x' y' b h1 h2 h3 h4 h5 h6 h7 h8 hne
    have hcond : ¬(x < 0 ∨ x ≥ 512 ∨ y < 0 ∨ y ≥ 256) := by omega
    have hcond' : ¬(x' < 0 ∨ x' ≥ 512 ∨ y' < 0 ∨ y' ≥ 256) := by omega
    simp only [VMMemory.set_pixel, VMMemory.get_pixel, if_neg hcond, if_neg hcond']
    by_cases haddr :
        VMAddress.SCREEN_BASE + (y'.toNat * 32 + x'.toNat / 16) =
        VMAddress.SCREEN_BASE + (y.toNat * 32 + x.toNat / 16)
    · rw [haddr, updateFn_same]
      refine setbit_get_other _ _ _ (Nat.mod_lt _ (by norm_num)) ?_ b
      simp only [VMAddress.SCREEN_BASE] at haddr
      omega
    · rw [updateFn_other _ _ haddr]
  · intro m x y b h
    rw [VMMemory.set_pixel, if_pos h]
  · intro m x y h
    rw [VMMemory.get_pixel, if_pos h]

/-- Witness for C10 at concrete pixels on both memories. -/
theorem pixel_get_set_roundtrip_witness :
    (CPUMemory.reset.set_pixel 17 3 true).get_pixel 17 3 = true ∧
    (CPUMemory.reset.set_pixel 17 3 true).get_pixel 16 3 = CPUMemory.reset.get_pixel 16 3 ∧
    CPUMemory.reset.set_pixel 600 3 true = CPUMemory.reset ∧
    CPUMemory.reset.get_pixel (-1) 0 = false ∧
    (VMMemory.reset.set_pixel 17 3 false).get_pixel 17 3 = false ∧
    VMMemory.reset.get_pixel 512 0 = false :=
  ⟨pixel_get_set_roundtrip.1 CPUMemory.reset 17 3 true (by decide) (by decide)
     (by decide) (by decide),
   pixel_get_set_roundtrip.2.1 CPUMemory.reset 17 3 16 3 true (by decide) (by decide)
     (by decide) (by decide) (by decide) (by decide) (by decide) (by decide)
     (Or.inl (by decide)),
   pixel_get_set_roundtrip.2.2.1 CPUMemory.reset 600 3 true (Or.inr (Or.inl (by decide))),
   pixel_get_set_roundtrip.2.2.2.1 CPUMemory.reset (-1) 0 (Or.inl (by decide)),
   pixel_get_set_roundtrip.2.2.2.2.1 VMMemory.reset 17 3 false (by decide) (by decide)
     (by decide) (by decide),
   pixel_get_set_roundtrip.2.2.2.2.2.2.2 VMMemory.reset 512 0
     (Or.inr (Or.inl (by decide)))⟩

/-! ### C4 — C-instruction execution semantics -/

set_option maxHeartbeats 1000000 in
/-- C4: for an executed C-instruction (bit 15 set, no halt/pause/breakpoint
short-circuit, in-bounds memory accesses, valid comp code with ALU value
`alu`): the ALU operand is `RAM[A]` when the a-bit is set and `A` otherwise
(visible in the `compute_alu` hypothesis), the destination writes are
applied independently (A and D from their dest bits), the M write goes to
`RAM[A_before]` where `A_before` is the A value captured before the
destination writes, and PC becomes the post-write A when the jump condition
holds on the signed ALU output, else PC+1 (a 16-bit `Address` increment). -/
theorem c_instruction_execution_semantics :
    ∀ (e : CPUEngine) (raw alu : Nat),
    e.pc < e.memory.program_size →
    e.pause_requested = false →
    (e.stats.instructions_executed = 0 ∨ e.pc ∉ e.breakpoints) →
    e.memory.rom e.pc = raw →
    Nat.testBit raw 15 = true →
    (((raw >>> 6) &&& 0x7F) &&& 0x40 ≠ 0 → e.a_register < CPUAddress.RAM_SIZE) →
    (((raw >>> 3) &&& 0x7) &&& 0x1 ≠ 0 → e.a_register < CPUAddress.RAM_SIZE) →
    compute_alu ((raw >>> 6) &&& 0x7F) e.d_register
      (if ((raw >>> 6) &&& 0x7F) &&& 0x40 ≠ 0 then e.memory.ram e.a_register
       else e.a_register) = some alu →
    (e.execute_instruction.1.a_register =
        (if ((raw >>> 3) &&& 0x7) &&& 0x4 != 0 then alu else e.a_register) ∧
     e.execute_instruction.1.d_register =
        (if ((raw >>> 3) &&& 0x7) &&& 0x2 != 0 then alu else e.d_register) ∧
     e.execute_instruction.1.memory.ram =
        (if ((raw >>> 3) &&& 0x7) &&& 0x1 != 0 then updateFn e.memory.ram e.a_register alu
         else e.memory.ram) ∧
     e.execute_instruction.1.pc =
        (if should_jump (raw &&& 0x7) alu
         then (if ((raw >>> 3) &&& 0x7) &&& 0x4 != 0 then alu else e.a_register)
         else (e.pc + 1) % 65536)) := by
  intro e raw alu hpc hpause hbp hrom h15 hread hwrite halu
  have hge : ¬(e.pc ≥ e.memory.program_size) := by omega
  have hbpc : ¬(e.stats.instructions_executed > 0 ∧ e.pc ∈ e.breakpoints) := by
    rcases hbp with h | h <;> simp [h] <;> omega
  have h0x8000 := and_two_pow_15_ne h15
  by_cases habit : ((raw >>> 6) &&& 0x7F) &&& 0x40 = 0
  · rw [if_neg (show ¬(((raw >>> 6) &&& 0x7F) &&& 0x40 ≠ 0) from fun h => h habit)] at halu
    by_cases hdm : ((raw >>> 3) &&& 0x7) &&& 0x1 = 0
    · simp only [CPUEngine.execute_instruction, hrom, hge, hpause, hbpc, h0x8000,
        habit, hdm, CPUMemory.read_ram, CPUMemory.write_ram, halu,
        if_false, if_true, ite_false, ite_true, bne_self_eq_false,
        Bool.false_eq_true, reduceIte, bne_iff_ne, ne_eq, Option.elim_some, Option.elim_none]
      split_ifs <;>
        first
        | exact False.elim (by assumption)
        | (refine ⟨?_, ?_, ?_, ?_⟩ <;> rfl)
        | (simp only [Option.elim_some, Option.elim_none]
           split_ifs <;> refine ⟨?_, ?_, ?_, ?_⟩ <;> rfl)
    · have hwa : ¬(e.a_register ≥ CPUAddress.RAM_SIZE) := by
        have := hwrite hdm
        omega
      simp only [CPUEngine.execute_instruction, hrom, hge, hpause, hbpc, h0x8000,
        habit, hdm, CPUMemory.read_ram, CPUMemory.write_ram, hwa, halu,
        if_false, if_true, ite_false, ite_true, bne_self_eq_false,
        Bool.false_eq_true, reduceIte, bne_iff_ne, ne_eq, Option.elim_some, Option.elim_none]
      split_ifs <;>
        first
        | exact False.elim (by assumption)
        | (refine ⟨?_, ?_, ?_, ?_⟩ <;> rfl)
        | (simp only [Option.elim_some, Option.elim_none]
           split_ifs <;> refine ⟨?_, ?_, ?_, ?_⟩ <;> rfl)
  · rw [if_pos habit] at halu
    have hra : ¬(e.a_register ≥ CPUAddress.RAM_SIZE) := by
      have := hread habit
      omega
    by_cases hdm : ((raw >>> 3) &&& 0x7) &&& 0x1 = 0
    · simp only [CPUEngine.execute_instruction, hrom, hge, hpause, hbpc, h0x8000,
        habit, hdm, hra, CPUMemory.read_ram, CPUMemory.write_ram, halu,
        if_false, if_true, ite_false, ite_true, bne_self_eq_false,
        Bool.false_eq_true, reduceIte, bne_iff_ne, ne_eq, Option.elim_some, Option.elim_none]
      split_ifs <;>
        first
        | exact False.elim (by assumption)
        | (refine ⟨?_, ?_, ?_, ?_⟩ <;> rfl)
        | (simp only [Option.elim_some, Option.elim_none]
           split_ifs <;> refine ⟨?_, ?_, ?_, ?_⟩ <;> rfl)
    · have hwa : ¬(e.a_register ≥ CPUAddress.RAM_SIZE) := by
        have := hwrite hdm
        omega
      simp only [CPUEngine.execute_instruction, hrom, hge, hpause, hbpc, h0x8000,
        habit, hdm, hra, hwa, CPUMemory.read_ram, CPUMemory.write_ram, halu,
        if_false, if_true, ite_false, ite_true, bne_self_eq_false,
        Bool.false_eq_true, reduceIte, bne_iff_ne, ne_eq, Option.elim_some, Option.elim_none]
      split_ifs <;>
        first
        | exact False.elim (by assumption)
        | (refine ⟨?_, ?_, ?_, ?_⟩ <;> rfl)
        | (simp only [Option.elim_some, Option.elim_none]
           split_ifs <;> refine ⟨?_, ?_, ?_, ?_⟩ <;> rfl)


/-- Witness for C4: executing `MD=D+M` (`0b1111000010011000`) with `A=100`,
`D=7`, `RAM[100]=9` writes 16 to D and to `RAM[100]` (the pre-instruction
A), leaves A at 100, and increments PC. -/
theorem c4_witness :
    cpuC4Engine.execute_instruction.1.a_register = 100 ∧
    cpuC4Engine.execute_instruction.1.d_register = 16 ∧
    cpuC4Engine.execute_instruction.1.memory.ram =
      updateFn cpuC4Engine.memory.ram 100 16 ∧
    cpuC4Engine.execute_instruction.1.pc = 1 := by
  have h := c_instruction_execution_semantics cpuC4Engine 0b1111000010011000 16
    (by decide) rfl (Or.inl rfl) rfl (by decide) (fun _ => by decide)
    (fun _ => by decide) (by decide)
  exact ⟨h.1.trans (by rfl), h.2.1.trans (by rfl), h.2.2.1.trans (by rfl),
    h.2.2.2.trans (by rfl)⟩

/-! ### C1 — call/return frame protocol -/

theorem wcast_coe_sub {a b : Nat} (hba : b ≤ a) (ha : a < 65536) :
    wcast ((a : Int) - b) = a - b := by
  have h0 : (0 : Int) ≤ (a : Int) - b := by
    have : (b : Int) ≤ a := by exact_mod_cast hba
    omega
  have h1 : (a : Int) - b < 65536 := by
    have : (a : Int) < 65536 := by exact_mod_cast ha
    omega
  have h2 := wcast_of_lt h0 h1
  omega

theorem zeroLocals_ram_ne : ∀ (k : Nat) (r : Nat → Nat) (base x : Nat),
    (∀ i, i < k → (base + i) % 65536 ≠ x) → zeroLocals r base k x = r x
  | 0, r, base, x, _ => rfl
  | k + 1, r, base, x, h => by
    rw [zeroLocals]
    rw [zeroLocals_ram_ne k _ (base + 1) x (fun i hi => by
      have := h (i + 1) (by omega)
      omega)]
    exact updateFn_other r _ (by have := h 0 (by omega); omega)

/-- C1 amended: around a balanced `push_frame`/`pop_frame` pair the pointer
registers LCL, ARG, THIS and THAT are restored to their pre-call values and
the shadow call stack returns to its pre-call state; SP, however, does not
return to its pre-call value — it becomes `SP_before - n_args + 1`, i.e.
the n_args arguments are replaced by the single return value, which sits at
the caller's new top of stack `RAM[SP_before - n_args]`.  The first
conjunct shows `push_frame` establishes the callee-entry frame layout; the
second quantifies over any callee-exit state `m'` that preserves that
layout (LCL/ARG registers, the five saved frame words, the pushed shadow
frame), so it covers any balanced sequence of inner calls and returns.
The conclusion holds for `n_args = 0` as well, because `pop_frame` captures
the return address from `RAM[frame_ptr - 5]` before writing the return
value over `ARG[0]` (the same cell in that case). -/
theorem call_return_frame_protocol (m : VMMemory) (ra : Nat) (fn : String)
    (num_args num_locals rv : Nat)
    (hsp : 256 ≤ m.ram VMAddress.SP)
    (hroom : m.ram VMAddress.SP + 5 + num_locals ≤ 32768)
    (hargs : num_args + 256 ≤ m.ram VMAddress.SP)
    (hra : ra < 65536) :
    ((m.push_frame ra fn num_args num_locals).ram VMAddress.LCL = m.ram VMAddress.SP + 5 ∧
     (m.push_frame ra fn num_args num_locals).ram VMAddress.ARG = m.ram VMAddress.SP - num_args ∧
     (m.push_frame ra fn num_args num_locals).ram VMAddress.SP = m.ram VMAddress.SP + 5 + num_locals ∧
     (m.push_frame ra fn num_args num_locals).ram (m.ram VMAddress.SP) = ra ∧
     (m.push_frame ra fn num_args num_locals).ram (m.ram VMAddress.SP + 1) = m.ram VMAddress.LCL ∧
     (m.push_frame ra fn num_args num_locals).ram (m.ram VMAddress.SP + 2) = m.ram VMAddress.ARG ∧
     (m.push_frame ra fn num_args num_locals).ram (m.ram VMAddress.SP + 3) = m.ram VMAddress.THIS ∧
     (m.push_frame ra fn num_args num_locals).ram (m.ram VMAddress.SP + 4) = m.ram VMAddress.THAT ∧
     (m.push_frame ra fn num_args num_locals).call_stack.tail = m.call_stack ∧
     (m.push_frame ra fn num_args num_locals).call_stack ≠ []) ∧
    (∀ m' : VMMemory,
      m'.ram VMAddress.LCL = m.ram VMAddress.SP + 5 →
      m'.ram VMAddress.ARG = m.ram VMAddress.SP - num_args →
      m'.ram (m.ram VMAddress.SP) = ra →
      m'.ram (m.ram VMAddress.SP + 1) = m.ram VMAddress.LCL →
      m'.ram (m.ram VMAddress.SP + 2) = m.ram VMAddress.ARG →
      m'.ram (m.ram VMAddress.SP + 3) = m.ram VMAddress.THIS →
      m'.ram (m.ram VMAddress.SP + 4) = m.ram VMAddress.THAT →
      m'.call_stack.tail = m.call_stack → m'.call_stack ≠ [] →
      ∃ m2 : VMMemory, m'.pop_frame rv = some (ra, m2) ∧
        m2.ram VMAddress.SP = m.ram VMAddress.SP - num_args + 1 ∧
        m2.ram VMAddress.LCL = m.ram VMAddress.LCL ∧
        m2.ram VMAddress.ARG = m.ram VMAddress.ARG ∧
        m2.ram VMAddress.THIS = m.ram VMAddress.THIS ∧
        m2.ram VMAddress.THAT = m.ram VMAddress.THAT ∧
        m2.ram (m.ram VMAddress.SP - num_args) = rv ∧
        m2.call_stack = m.call_stack) := by
  have hsp5 : m.ram VMAddress.SP + 5 < 65536 := by omega
  have e0 : m.ram VMAddress.SP % 65536 = m.ram VMAddress.SP := Nat.mod_eq_of_lt (by omega)
  have e1 : (m.ram VMAddress.SP + 1) % 65536 = m.ram VMAddress.SP + 1 := Nat.mod_eq_of_lt (by omega)
  have e2 : (m.ram VMAddress.SP + 2) % 65536 = m.ram VMAddress.SP + 2 := Nat.mod_eq_of_lt (by omega)
  have e3 : (m.ram VMAddress.SP + 3) % 65536 = m.ram VMAddress.SP + 3 := Nat.mod_eq_of_lt (by omega)
  have e4 : (m.ram VMAddress.SP + 4) % 65536 = m.ram VMAddress.SP + 4 := Nat.mod_eq_of_lt (by omega)
  have e5 : (m.ram VMAddress.SP + 5) % 65536 = m.ram VMAddress.SP + 5 := Nat.mod_eq_of_lt (by omega)
  have e6 : (m.ram VMAddress.SP + 5 + num_locals) % 65536 = m.ram VMAddress.SP + 5 + num_locals :=
    Nat.mod_eq_of_lt (by omega)
  have era : ra % 65536 = ra := Nat.mod_eq_of_lt hra
  have eA : wcast ((m.ram VMAddress.SP : Int) + 5 - num_args - 5) =
      m.ram VMAddress.SP - num_args := by
    have h : ((m.ram VMAddress.SP : Int) + 5 - num_args - 5) =
        ((m.ram VMAddress.SP : Int) - num_args) := by ring
    rw [h, wcast_coe_sub (by omega) (by omega)]
  simp only [VMAddress.SP, VMAddress.LCL, VMAddress.ARG, VMAddress.THIS,
    VMAddress.THAT] at hsp hroom hargs hsp5 e0 e1 e2 e3 e4 e5 e6 eA ⊢
  constructor
  · simp only [VMMemory.push_frame, VMAddress.SP, VMAddress.LCL, VMAddress.ARG,
      VMAddress.THIS, VMAddress.THAT, e0, e1, e2, e3, e4, e5, e6, era, eA]
    refine ⟨?_, ?_, ?_, ?_, ?_, ?_, ?_, ?_, rfl, by simp⟩
    · rw [updateFn_other _ _ (show (1 : Nat) ≠ 0 by omega),
        zeroLocals_ram_ne _ _ _ _ (fun i hi => by omega),
        updateFn_same]
    · dsimp only
      rw [updateFn_other _ _ (show (2 : Nat) ≠ 0 by omega),
        zeroLocals_ram_ne _ _ _ _ (fun i hi => by omega),
        updateFn_other _ _ (show (2 : Nat) ≠ 1 by omega),
        updateFn_same]
    · rw [updateFn_same]
    · rw [updateFn_other _ _ (show m.ram 0 ≠ 0 by omega),
        zeroLocals_ram_ne _ _ _ _ (fun i hi => by omega),
        updateFn_other _ _ (show m.ram 0 ≠ 1 by omega),
        updateFn_other _ _ (show m.ram 0 ≠ 2 by omega),
        updateFn_other _ _ (show m.ram 0 ≠ m.ram 0 + 4 by omega),
        updateFn_other _ _ (show m.ram 0 ≠ m.ram 0 + 3 by omega),
        updateFn_other _ _ (show m.ram 0 ≠ m.ram 0 + 2 by omega),
        updateFn_other _ _ (show m.ram 0 ≠ m.ram 0 + 1 by omega),
        updateFn_same]
    · rw [updateFn_other _ _ (show m.ram 0 + 1 ≠ 0 by omega),
        zeroLocals_ram_ne _ _ _ _ (fun i hi => by omega),
        updateFn_other _ _ (show m.ram 0 + 1 ≠ 1 by omega),
        updateFn_other _ _ (show m.ram 0 + 1 ≠ 2 by omega),
        updateFn_other _ _ (show m.ram 0 + 1 ≠ m.ram 0 + 4 by omega),
        updateFn_other _ _ (show m.ram 0 + 1 ≠ m.ram 0 + 3 by omega),
        updateFn_other _ _ (show m.ram 0 + 1 ≠ m.ram 0 + 2 by omega),
        updateFn_same]
    · rw [updateFn_other _ _ (show m.ram 0 + 2 ≠ 0 by omega),
        zeroLocals_ram_ne _ _ _ _ (fun i hi => by omega),
        updateFn_other _ _ (show m.ram 0 + 2 ≠ 1 by omega),
        updateFn_other _ _ (show m.ram 0 + 2 ≠ 2 by omega),
        updateFn_other _ _ (show m.ram 0 + 2 ≠ m.ram 0 + 4 by omega),
        updateFn_other _ _ (show m.ram 0 + 2 ≠ m.ram 0 + 3 by omega),
        updateFn_same]
    · rw [updateFn_other _ _ (show m.ram 0 + 3 ≠ 0 by omega),
        zeroLocals_ram_ne _ _ _ _ (fun i hi => by omega),
        updateFn_other _ _ (show m.ram 0 + 3 ≠ 1 by omega),
        updateFn_other _ _ (show m.ram 0 + 3 ≠ 2 by omega),
        updateFn_other _ _ (show m.ram 0 + 3 ≠ m.ram 0 + 4 by omega),
        updateFn_same]
    · rw [updateFn_other _ _ (show m.ram 0 + 4 ≠ 0 by omega),
        zeroLocals_ram_ne _ _ _ _ (fun i hi => by omega),
        updateFn_other _ _ (show m.ram 0 + 4 ≠ 1 by omega),
        updateFn_other _ _ (show m.ram 0 + 4 ≠ 2 by omega),
        updateFn_same]
  · intro m' hL hA h0 h1 h2 h3 h4 htail hne
    obtain ⟨fr, t, hcs⟩ : ∃ fr t, m'.call_stack = fr :: t := by
      cases hx : m'.call_stack with
      | nil => exact absurd hx hne
      | cons fr t => exact ⟨fr, t, rfl⟩
    have ht : t = m.call_stack := by
      rw [hcs] at htail
      exact htail
    have eW5 : wcast ((m'.ram 1 : Int) - 5) = m.ram 0 := by
      rw [hL]
      unfold wcast
      omega
    have eW1 : wcast ((m'.ram 1 : Int) - 1) = m.ram 0 + 4 := by
      rw [hL]
      unfold wcast
      omega
    have eW2 : wcast ((m'.ram 1 : Int) - 2) = m.ram 0 + 3 := by
      rw [hL]
      unfold wcast
      omega
    have eW3 : wcast ((m'.ram 1 : Int) - 3) = m.ram 0 + 2 := by
      rw [hL]
      unfold wcast
      omega
    have eW4 : wcast ((m'.ram 1 : Int) - 4) = m.ram 0 + 1 := by
      rw [hL]
      unfold wcast
      omega
    have eS : (m.ram 0 - num_args + 1) % 65536 = m.ram 0 - num_args + 1 :=
      Nat.mod_eq_of_lt (by omega)
    simp only [VMMemory.pop_frame, hcs, VMAddress.SP, VMAddress.LCL, VMAddress.ARG,
      VMAddress.THIS, VMAddress.THAT, eW5, eW1, eW2, eW3, eW4, eS, h0, h1, h2, h3, h4, hA]
    have v1 : updateFn m'.ram 4 (m.ram 4) (m.ram 0 + 3) = m.ram 3 := by
      rw [updateFn_other _ _ (show m.ram 0 + 3 ≠ 4 by omega)]
      exact h3
    have v2 : updateFn (updateFn m'.ram 4 (m.ram 4)) 3 (m.ram 3) (m.ram 0 + 2) = m.ram 2 := by
      rw [updateFn_other _ _ (show m.ram 0 + 2 ≠ 3 by omega),
        updateFn_other _ _ (show m.ram 0 + 2 ≠ 4 by omega)]
      exact h2
    have v3 : updateFn (updateFn (updateFn m'.ram 4 (m.ram 4)) 3 (m.ram 3)) 2 (m.ram 2)
        (m.ram 0 + 1) = m.ram 1 := by
      rw [updateFn_other _ _ (show m.ram 0 + 1 ≠ 2 by omega),
        updateFn_other _ _ (show m.ram 0 + 1 ≠ 3 by omega),
        updateFn_other _ _ (show m.ram 0 + 1 ≠ 4 by omega)]
      exact h1
    simp only [v1, v2, v3]
    refine ⟨_, rfl, ?_, ?_, ?_, ?_, ?_, ?_, ht⟩
    · dsimp only
      rw [updateFn_same]
    · dsimp only
      rw [updateFn_other _ _ (show (1 : Nat) ≠ 0 by omega),
        updateFn_other _ _ (show (1 : Nat) ≠ m.ram 0 - num_args by omega),
        updateFn_same]
    · dsimp only
      rw [updateFn_other _ _ (show (2 : Nat) ≠ 0 by omega),
        updateFn_other _ _ (show (2 : Nat) ≠ m.ram 0 - num_args by omega),
        updateFn_other _ _ (show (2 : Nat) ≠ 1 by omega),
        updateFn_same]
    · dsimp only
      rw [updateFn_other _ _ (show (3 : Nat) ≠ 0 by omega),
        updateFn_other _ _ (show (3 : Nat) ≠ m.ram 0 - num_args by omega),
        updateFn_other _ _ (show (3 : Nat) ≠ 1 by omega),
        updateFn_other _ _ (show (3 : Nat) ≠ 2 by omega),
        updateFn_same]
    · dsimp only
      rw [updateFn_other _ _ (show (4 : Nat) ≠ 0 by omega),
        updateFn_other _ _ (show (4 : Nat) ≠ m.ram 0 - num_args by omega),
        updateFn_other _ _ (show (4 : Nat) ≠ 1 by omega),
        updateFn_other _ _ (show (4 : Nat) ≠ 2 by omega),
        updateFn_other _ _ (show (4 : Nat) ≠ 3 by omega),
        updateFn_same]
    · dsimp only
      rw [updateFn_other _ _ (show m.ram 0 - num_args ≠ 0 by omega),
        updateFn_same]

/-- Counterexample to C1 as stated: with `n_args = 0`, a call/return pair
from the reset state (SP = 256) returns with SP = 257 ≠ 256 — the return
value occupies one stack slot, so SP at the outer boundary does not equal
its value before the `call` (the return address 7 is still delivered
correctly, showing the capture-before-write discipline works). -/
theorem call_return_sp_counterexample :
    VMMemory.reset.ram VMAddress.SP = 256 ∧
    ((VMMemory.reset.push_frame 7 "f" 0 0).pop_frame 42).map
      (fun p => (p.1, p.2.ram VMAddress.SP)) = some (7, 257) ∧
    (257 : Nat) ≠ 256 :=
  ⟨rfl, rfl, by decide⟩

/-- Witness for the amended C1 at a concrete call/return pair. -/
theorem c1_witness :
    ((VMMemory.reset.push_frame 7 "f" 0 0).pop_frame 42).map
      (fun p => (p.1, p.2.ram 0, p.2.ram 1, p.2.ram 2, p.2.ram 3, p.2.ram 4, p.2.ram 256))
      = some (7, 257, 0, 0, 0, 0, 42) := by
  obtain ⟨hpush, hpop⟩ := call_return_frame_protocol VMMemory.reset 7 "f" 0 0 42
    (by decide) (by decide) (by decide) (by decide)
  obtain ⟨m2, hp, hSP, hL, hA, hTh, hTt, hrv, hcs⟩ :=
    hpop _ hpush.1 hpush.2.1 hpush.2.2.2.1 hpush.2.2.2.2.1 hpush.2.2.2.2.2.1
      hpush.2.2.2.2.2.2.1 hpush.2.2.2.2.2.2.2.1 hpush.2.2.2.2.2.2.2.2.1
      hpush.2.2.2.2.2.2.2.2.2
  simp only [VMAddress.SP, VMAddress.LCL, VMAddress.ARG, VMAddress.THIS,
    VMAddress.THAT] at hSP hL hA hTh hTt hrv
  have hr0 : VMMemory.reset.ram 0 = 256 := rfl
  have hr1 : VMMemory.reset.ram 1 = 0 := rfl
  have hr2 : VMMemory.reset.ram 2 = 0 := rfl
  have hr3 : VMMemory.reset.ram 3 = 0 := rfl
  have hr4 : VMMemory.reset.ram 4 = 0 := rfl
  rw [hr0] at hSP hrv
  rw [hp]
  show some (7, m2.ram 0, m2.ram 1, m2.ram 2, m2.ram 3, m2.ram 4, m2.ram 256)
      = some (7, 257, 0, 0, 0, 0, 42)
  rw [show (256 : Nat) - 0 + 1 = 257 from rfl] at hSP
  rw [show (256 : Nat) - 0 = 256 from rfl] at hrv
  rw [hSP, hL, hA, hTh, hTt, hrv, hr1, hr2, hr3, hr4]

/-! ### C7 — topological evaluation order -/


theorem posOf_append_of_mem {x : Nat} : ∀ {l₁ : List Nat} (l₂ : List Nat),
    x ∈ l₁ → posOf (l₁ ++ l₂) x = posOf l₁ x
  | [], _, h => absurd h (by simp)
  | y :: ys, l₂, h => by
    rw [List.cons_append, posOf, posOf]
    by_cases hy : y = x
    · simp [hy]
    · rw [if_neg hy, if_neg hy, posOf_append_of_mem l₂ (by
        rcases List.mem_cons.mp h with h | h
        · exact absurd h.symm hy
        · exact h)]

theorem posOf_lt_length {x : Nat} : ∀ {l : List Nat}, x ∈ l → posOf l x < l.length
  | [], h => absurd h (by simp)
  | y :: ys, h => by
    rw [posOf]
    by_cases hy : y = x
    · simp [hy]
    · rw [if_neg hy]
      have : x ∈ ys := by
        rcases List.mem_cons.mp h with h | h
        · exact absurd h.symm hy
        · exact h
      simpa [List.length_cons] using posOf_lt_length this

theorem posOf_append_of_not_mem {x : Nat} : ∀ {l₁ : List Nat} (l₂ : List Nat),
    x ∉ l₁ → posOf (l₁ ++ l₂) x = l₁.length + posOf l₂ x
  | [], _, _ => by simp [posOf]
  | y :: ys, l₂, h => by
    rw [List.cons_append, posOf]
    have hy : y ≠ x := fun hxy => h (by simp [hxy])
    rw [if_neg hy, posOf_append_of_not_mem l₂ (fun hx => h (by simp [hx]))]
    simp [List.length_cons]
    omega

theorem countP_eq_imp {α : Type} {p q : α → Bool} :
    ∀ (l : List α), (∀ x ∈ l, q x = true → p x = true) →
    l.countP p = l.countP q → ∀ x ∈ l, p x = true → q x = true
  | [], _, _, x, hx, _ => absurd hx (by simp)
  | a :: l, himp, hcount, x, hx, hpx => by
    rw [List.countP_cons, List.countP_cons] at hcount
    have hmono := List.countP_mono_left (p := q) (q := p) (l := l)
      (fun y hy => himp y (by simp [hy]))
    by_cases hqa : q a = true
    · have hpa : p a = true := himp a (by simp) hqa
      rw [if_pos hqa, if_pos hpa] at hcount
      have htail : l.countP p = l.countP q := by omega
      rcases List.mem_cons.mp hx with h | h
      · subst h; exact hqa
      · exact countP_eq_imp l (fun y hy => himp y (by simp [hy])) htail x h hpx
    · rcases List.mem_cons.mp hx with h | h
      · rw [if_neg hqa] at hcount
        by_cases hpa : p a = true
        · exfalso
          rw [if_pos hpa] at hcount
          omega
        · rw [h] at hpx
          exact absurd hpx hpa
      · have htail : l.countP p = l.countP q := by
          rw [if_neg hqa] at hcount
          by_cases hpa : p a = true
          · rw [if_pos hpa] at hcount
            omega
          · rw [if_neg hpa] at hcount
            omega
        exact countP_eq_imp l (fun y hy => himp y (by simp [hy])) htail x h hpx

theorem countP_split {α : Type} (p q : α → Bool) :
    ∀ l : List α, l.countP p =
      l.countP (fun a => p a && q a) + l.countP (fun a => p a && !q a)
  | [] => rfl
  | a :: l => by
    rw [List.countP_cons, List.countP_cons, List.countP_cons, countP_split p q l]
    by_cases hp : p a = true <;> by_cases hq : q a = true <;> simp [hp, hq] <;> omega


theorem adj_count (E : List (Nat × Nat)) (u v : Nat) :
    (evalOrderAdj E u).count v = cntE E u v := by
  rw [evalOrderAdj, cntE, List.count_eq_countP, List.countP_map, List.countP_filter]
  refine List.countP_congr (fun e he => ?_)
  by_cases h1 : e.1 = u <;> by_cases h2 : e.2 = v <;>
    simp [h1, h2, Function.comp]

theorem degSpec_eq_zero {E : List (Nat × Nat)} {order : List Nat} {v : Nat}
    (h : ∀ e ∈ E, e.2 = v → e.1 ∈ order) : degSpec E order v = 0 := by
  rw [degSpec, List.countP_eq_zero]
  intro e he
  by_cases h2 : e.2 = v
  · simp [h2, h e he h2]
  · simp [h2]

theorem cntE_le_degSpec {E : List (Nat × Nat)} {order : List Nat} {u v : Nat}
    (hu : u ∉ order) : cntE E u v ≤ degSpec E order v := by
  refine List.countP_mono_left (fun e he h => ?_)
  simp only [Bool.and_eq_true, decide_eq_true_eq] at h ⊢
  exact ⟨h.2, h.1 ▸ hu⟩

theorem degSpec_append {E : List (Nat × Nat)} {order : List Nat} {u : Nat}
    (hu : u ∉ order) (v : Nat) :
    degSpec E order v = cntE E u v + degSpec E (order ++ [u]) v := by
  rw [degSpec, countP_split (fun e2 => decide (e2.2 = v) && decide (e2.1 ∉ order))
    (fun e2 => decide (e2.1 = u)) E]
  congr 1
  · rw [cntE]
    refine List.countP_congr (fun e he => ?_)
    by_cases h1 : e.1 = u <;> by_cases h2 : e.2 = v
    · simp [h1, h2, hu]
    · simp [h1, h2]
    · simp [h1, h2]
    · simp [h1, h2]
  · rw [degSpec]
    refine List.countP_congr (fun e he => ?_)
    by_cases h1 : e.1 = u <;> by_cases h2 : e.2 = v <;>
      by_cases h3 : e.1 ∈ order <;> simp [h1, h2, h3, hu]

theorem mem_adj {E : List (Nat × Nat)} {u v : Nat}
    (h : v ∈ evalOrderAdj E u) : (u, v) ∈ E := by
  rw [evalOrderAdj] at h
  obtain ⟨e, he, hev⟩ := List.mem_map.mp h
  obtain ⟨heE, heu⟩ := List.mem_filter.mp he
  have h1 : e.1 = u := by simpa using heu
  have : e = (u, v) := by
    cases e
    simp_all
  exact this ▸ heE

theorem processAdj_inv (E : List (Nat × Nat)) (n u : Nat) (order : List Nat)
    (hE : ∀ e ∈ E, e.1 < n ∧ e.2 < n)
    (hu : u ∉ order)
    (hOrd : ∀ v ∈ order, ∀ e ∈ E, e.2 = v → e.1 ∈ order)
    (husrc : ∀ e ∈ E, e.2 = u → e.1 ∈ order) :
    ∀ (vs done q : List Nat) (deg : Nat → Nat),
    done ++ vs = evalOrderAdj E u →
    (∀ v, deg v = degSpec E order v - done.count v) →
    (∀ v ∈ q, ∀ e ∈ E, e.2 = v → e.1 ∈ order ∨ e.1 = u) →
    (∀ v ∈ q, deg v = 0) →
    (order ++ u :: q).Nodup →
    (∀ v ∈ order ++ u :: q, v < n) →
    (∀ v, (processAdj vs q deg).2 v = degSpec E order v - (done ++ vs).count v) ∧
    (∀ v ∈ (processAdj vs q deg).1, ∀ e ∈ E, e.2 = v → e.1 ∈ order ∨ e.1 = u) ∧
    (∀ v ∈ (processAdj vs q deg).1, (processAdj vs q deg).2 v = 0) ∧
    (order ++ u :: (processAdj vs q deg).1).Nodup ∧
    (∀ v ∈ order ++ u :: (processAdj vs q deg).1, v < n) := by
  intro vs
  induction vs with
  | nil =>
    intro done q deg hsplit hdeg hq hqdeg hnodup hbound
    rw [processAdj]
    exact ⟨fun v => by show deg v = _; rw [hdeg v, List.append_nil],
      hq, hqdeg, hnodup, hbound⟩
  | cons v0 vs' ih =>
    intro done q deg hsplit hdeg hq hqdeg hnodup hbound
    rw [processAdj]
    have hv0adj : v0 ∈ evalOrderAdj E u := by
      rw [← hsplit]; exact List.mem_append_right _ (List.mem_cons_self _ _)
    have hedge : (u, v0) ∈ E := mem_adj hv0adj
    have hv0n : v0 < n := (hE _ hedge).2
    have hcntsplit : cntE E u v0 = done.count v0 + 1 + vs'.count v0 := by
      rw [← adj_count, ← hsplit, List.count_append, List.count_cons_self]
      omega
    have hcle : cntE E u v0 ≤ degSpec E order v0 := cntE_le_degSpec hu
    -- the new done list
    have hsplit' : (done ++ [v0]) ++ vs' = evalOrderAdj E u := by
      rw [List.append_assoc, List.singleton_append]; exact hsplit
    have hdeg' : ∀ v, (updateFn deg v0 (deg v0 - 1)) v =
        degSpec E order v - (done ++ [v0]).count v := by
      intro v
      by_cases hv : v = v0
      · subst hv
        have h1 : List.count v (done ++ [v]) = List.count v done + 1 := by
          simp
        rw [updateFn_same, hdeg v, h1]
        omega
      · have h1 : List.count v (done ++ [v0]) = List.count v done := by
          rw [List.count_append]
          have h2 : List.count v [v0] = 0 := List.count_eq_zero.mpr (by simp [hv])
          omega
        rw [updateFn_other deg _ hv, hdeg v, h1]
    by_cases henq : deg v0 = 1
    · rw [if_pos henq]
      -- the enqueue case: v0 now has all predecessors in order ∪ {u}
      have hds : degSpec E order v0 = done.count v0 + 1 := by
        rw [hdeg v0] at henq
        have hdc : done.count v0 ≤ cntE E u v0 := by omega
        omega
      have hvsz : vs'.count v0 = 0 := by omega
      have hcnteq : degSpec E order v0 = cntE E u v0 := by omega
      have hpreds : ∀ e ∈ E, e.2 = v0 → e.1 ∈ order ∨ e.1 = u := by
        have himp := @countP_eq_imp (Nat × Nat)
          (fun e2 => decide (e2.2 = v0) && decide (e2.1 ∉ order))
          (fun e2 => decide (e2.1 = u) && decide (e2.2 = v0)) E
          (fun e he hq2 => by
            simp only [Bool.and_eq_true, decide_eq_true_eq] at hq2 ⊢
            exact ⟨hq2.2, fun hmem => hu (hq2.1 ▸ hmem)⟩)
          (by have h := hcnteq; rw [degSpec, cntE] at h; exact h)
        intro e he h2
        by_cases h1 : e.1 ∈ order
        · exact Or.inl h1
        · right
          have := himp e he (by simp [h2, h1])
          simp only [Bool.and_eq_true, decide_eq_true_eq] at this
          exact this.1
      have hv0fresh : v0 ∉ order ++ u :: q := by
        intro hmem
        rcases List.mem_append.mp hmem with hmo | hmc
        · have : degSpec E order v0 = 0 := degSpec_eq_zero (hOrd v0 hmo)
          rw [hdeg v0, this] at henq; omega
        · rcases List.mem_cons.mp hmc with hvu | hvq
          · have : degSpec E order v0 = 0 :=
              degSpec_eq_zero (fun e he h2 => husrc e he (hvu ▸ h2))
            rw [hdeg v0, this] at henq; omega
          · rw [hqdeg v0 hvq] at henq; omega
      have hperm : order ++ u :: (q ++ [v0]) = (order ++ u :: q) ++ [v0] := by
        rw [List.append_assoc, List.cons_append]
      have hlist : done ++ v0 :: vs' = done ++ [v0] ++ vs' := by
        rw [List.append_assoc, List.singleton_append]
      rw [hlist]
      refine ih (done ++ [v0]) (q ++ [v0]) _ hsplit' hdeg' ?_ ?_ ?_ ?_
      · intro v hv
        rcases List.mem_append.mp hv with hvq | hvv
        · exact hq v hvq
        · rw [List.mem_singleton.mp hvv]; exact hpreds
      · intro v hv
        rcases List.mem_append.mp hv with hvq | hvv
        · have hvne : v ≠ v0 := fun h => hv0fresh (h ▸ (by
            exact List.mem_append_right _ (List.mem_cons_of_mem _ hvq)))
          rw [updateFn_other deg _ hvne]
          exact hqdeg v hvq
        · rw [List.mem_singleton.mp hvv, updateFn_same, henq]
      · rw [hperm]
        refine List.Nodup.append hnodup (List.nodup_singleton _) ?_
        intro x hx hx2
        rw [List.mem_singleton.mp hx2] at hx
        exact hv0fresh hx
      · intro v hv
        rw [hperm] at hv
        rcases List.mem_append.mp hv with hvo | hvv
        · exact hbound v hvo
        · rw [List.mem_singleton.mp hvv]; exact hv0n
    · rw [if_neg henq]
      have hlist : done ++ v0 :: vs' = done ++ [v0] ++ vs' := by
        rw [List.append_assoc, List.singleton_append]
      rw [hlist]
      refine ih (done ++ [v0]) q _ hsplit' hdeg' hq ?_ hnodup hbound
      intro v hv
      by_cases hveq : v = v0
      · subst hveq
        rw [updateFn_same, hqdeg v hv]
      · rw [updateFn_other deg _ hveq]
        exact hqdeg v hv

theorem kahnLoop_inv (E : List (Nat × Nat)) (n : Nat)
    (hE : ∀ e ∈ E, e.1 < n ∧ e.2 < n) :
    ∀ (fuel : Nat) (q order : List Nat) (deg : Nat → Nat),
    (order ++ q).Nodup →
    (∀ v ∈ order ++ q, v < n) →
    (∀ v, deg v = degSpec E order v) →
    (∀ v ∈ q, ∀ e ∈ E, e.2 = v → e.1 ∈ order) →
    OrdOK E order →
    OrdOK E (kahnLoop (evalOrderAdj E) fuel q order deg) ∧
    (kahnLoop (evalOrderAdj E) fuel q order deg).Nodup ∧
    (∀ v ∈ kahnLoop (evalOrderAdj E) fuel q order deg, v < n) := by
  intro fuel
  induction fuel with
  | zero =>
    intro q order deg hnodup hbound _ _ hOrd
    rw [kahnLoop]
    exact ⟨hOrd, (List.nodup_append.mp hnodup).1,
      fun v hv => hbound v (List.mem_append_left _ hv)⟩
  | succ fuel ih =>
    intro q order deg hnodup hbound hdeg hq hOrd
    match q with
    | [] =>
      rw [kahnLoop]
      exact ⟨hOrd, by simpa using hnodup, fun v hv => hbound v (by simpa using hv)⟩
    | u :: q' =>
      rw [kahnLoop]
      have hu : u ∉ order := by
        have := List.nodup_append.mp hnodup
        exact fun h => this.2.2 h (List.mem_cons_self _ _)
      have hOrd' : ∀ v ∈ order, ∀ e ∈ E, e.2 = v → e.1 ∈ order :=
        fun v hv e he h2 => (hOrd e he (h2 ▸ hv)).1
      have husrc : ∀ e ∈ E, e.2 = u → e.1 ∈ order :=
        fun e he h2 => hq u (List.mem_cons_self _ _) e he h2
      have hpa := processAdj_inv E n u order hE hu hOrd' husrc
        (evalOrderAdj E u) [] q' deg (by rw [List.nil_append])
        (fun v => by rw [hdeg v, List.count_nil]; omega)
        (fun v hv e he h2 =>
          Or.inl (hq v (List.mem_cons_of_mem _ hv) e he h2))
        (fun v hv => by
          rw [hdeg v, degSpec_eq_zero (hq v (List.mem_cons_of_mem _ hv))])
        hnodup hbound
      obtain ⟨hdeg1, hq1, hqdeg1, hnodup1, hbound1⟩ := hpa
      set s := processAdj (evalOrderAdj E u) q' deg with hs
      have hnodup' : ((order ++ [u]) ++ s.1).Nodup := by
        rw [List.append_assoc, List.singleton_append]; exact hnodup1
      have hbound' : ∀ v ∈ (order ++ [u]) ++ s.1, v < n := by
        intro v hv
        refine hbound1 v ?_
        rw [List.append_assoc, List.singleton_append] at hv; exact hv
      have hdeg' : ∀ v, s.2 v = degSpec E (order ++ [u]) v := by
        intro v
        rw [hdeg1 v, List.nil_append, adj_count, degSpec_append hu v]
        have := cntE_le_degSpec (E := E) (v := v) hu
        omega
      have hq' : ∀ v ∈ s.1, ∀ e ∈ E, e.2 = v → e.1 ∈ order ++ [u] := by
        intro v hv e he h2
        rcases hq1 v hv e he h2 with h | h
        · exact List.mem_append_left _ h
        · exact List.mem_append_right _ (List.mem_singleton.mpr h)
      have hOrdA : OrdOK E (order ++ [u]) := by
        intro e he h2
        rcases List.mem_append.mp h2 with h2o | h2u
        · obtain ⟨h1o, hpos⟩ := hOrd e he h2o
          exact ⟨List.mem_append_left _ h1o,
            by rw [posOf_append_of_mem _ h1o, posOf_append_of_mem _ h2o];
               exact hpos⟩
        · have h2u' : e.2 = u := List.mem_singleton.mp h2u
          have h1o : e.1 ∈ order := husrc e he h2u'
          refine ⟨List.mem_append_left _ h1o, ?_⟩
          rw [posOf_append_of_mem _ h1o, h2u', posOf_append_of_not_mem _ hu]
          have := posOf_lt_length h1o
          simp only [List.mem_singleton, posOf]
          omega
      exact ih s.1 (order ++ [u]) s.2 hnodup' hbound' hdeg' hq' hOrdA

theorem evalOrderEdges_bounds (n : Nat) (inM outM : List WireMapping)
    (cIn cOut : List String) :
    ∀ e ∈ evalOrderEdges n inM outM cIn cOut, e.1 < n ∧ e.2 < n := by
  intro e he
  rw [evalOrderEdges] at he
  obtain ⟨b, hb, he2⟩ := List.mem_flatMap.mp he
  obtain ⟨w, _, he3⟩ := List.mem_flatMap.mp he2
  obtain ⟨a, ha, hea⟩ := List.mem_map.mp he3
  obtain ⟨haR, _⟩ := List.mem_filter.mp ha
  subst hea
  exact ⟨List.mem_range.mp haR, List.mem_range.mp hb⟩

theorem kahnOrderOf_sound (n : Nat) (inM outM : List WireMapping)
    (cIn cOut : List String) :
    OrdOK (evalOrderEdges n inM outM cIn cOut)
      (kahnOrderOf n inM outM cIn cOut) ∧
    (kahnOrderOf n inM outM cIn cOut).Nodup ∧
    (∀ v ∈ kahnOrderOf n inM outM cIn cOut, v < n) := by
  have hE := evalOrderEdges_bounds n inM outM cIn cOut
  rw [kahnOrderOf]
  refine kahnLoop_inv _ n hE _ _ _ _ ?_ ?_ ?_ ?_ ?_
  · rw [List.nil_append]
    exact List.Nodup.filter _ (List.nodup_range n)
  · intro v hv
    rw [List.nil_append] at hv
    exact List.mem_range.mp (List.mem_filter.mp hv).1
  · intro v
    rw [evalOrderDeg, degSpec, List.countP_eq_length_filter]
    refine congrArg _ (List.filter_congr (fun e he => ?_))
    simp
  · intro v hv e he h2
    have hdz : evalOrderDeg (evalOrderEdges n inM outM cIn cOut) v = 0 := by
      have := (List.mem_filter.mp hv).2
      simpa using this
    rw [evalOrderDeg] at hdz
    have : e ∈ List.filter (fun e2 => decide (e2.2 = v))
        (evalOrderEdges n inM outM cIn cOut) :=
      List.mem_filter.mpr ⟨he, by simp [h2]⟩
    rw [List.length_eq_zero] at hdz
    rw [hdz] at this
    exact absurd this (List.not_mem_nil e)
  · intro e _ h2
    exact absurd h2 (List.not_mem_nil _)

theorem mem_of_nodup_bound_length {l : List Nat} {n : Nat}
    (hnd : l.Nodup) (hb : ∀ v ∈ l, v < n) (hlen : l.length = n) :
    ∀ v < n, v ∈ l := by
  intro v hv
  have hsub : l.toFinset ⊆ Finset.range n := by
    intro x hx
    exact Finset.mem_range.mpr (hb x (List.mem_toFinset.mp hx))
  have hcard : l.toFinset.card = (Finset.range n).card := by
    rw [List.toFinset_card_of_nodup hnd, hlen, Finset.card_range]
  have heq : l.toFinset = Finset.range n :=
    Finset.eq_of_subset_of_card_le hsub (le_of_eq hcard.symm)
  have : v ∈ l.toFinset := heq ▸ Finset.mem_range.mpr hv
  exact List.mem_toFinset.mp this

theorem mem_evalOrderEdges {n : Nat} {inM outM : List WireMapping}
    {cIn cOut : List String} {a b : Nat} {w : String}
    (ha : a < n) (hb : b < n) (hab : a ≠ b)
    (hw : partWrites outM a w = true)
    (hr : w ∈ wiresRead inM cIn cOut b) :
    (a, b) ∈ evalOrderEdges n inM outM cIn cOut := by
  rw [evalOrderEdges]
  refine List.mem_flatMap.mpr ⟨b, List.mem_range.mpr hb, ?_⟩
  refine List.mem_flatMap.mpr ⟨w, hr, ?_⟩
  refine List.mem_map.mpr ⟨a, ?_, rfl⟩
  refine List.mem_filter.mpr ⟨List.mem_range.mpr ha, ?_⟩
  simp [hab, hw]

/-- C7 (amended): whenever the Kahn order covers all `n` parts — i.e. the
dependency graph is acyclic — `compute_eval_order` returns it, and then for
every wire `w`, every part `b` that reads `w` comes strictly after every
other part `a` that writes `w` in the evaluation order.  The claimed cycle
error does not exist: when coverage fails the function silently returns
source order `0, …, n-1` (see the counterexample). -/
theorem eval_order_readers_after_writers
    (n : Nat) (inM outM : List WireMapping) (cIn cOut : List String)
    (hcover : (kahnOrderOf n inM outM cIn cOut).length = n) :
    compute_eval_order n inM outM cIn cOut = kahnOrderOf n inM outM cIn cOut ∧
    (∀ a b : Nat, ∀ w : String, a < n → b < n → a ≠ b →
      partWrites outM a w = true → w ∈ wiresRead inM cIn cOut b →
      posOf (compute_eval_order n inM outM cIn cOut) a <
        posOf (compute_eval_order n inM outM cIn cOut) b) := by
  obtain ⟨hord, hnd, hbd⟩ := kahnOrderOf_sound n inM outM cIn cOut
  have hceq : compute_eval_order n inM outM cIn cOut =
      kahnOrderOf n inM outM cIn cOut := by
    rw [compute_eval_order]
    by_cases hn : n = 0
    · rw [if_pos hn]
      have : (kahnOrderOf n inM outM cIn cOut).length = 0 := hn ▸ hcover
      exact (List.length_eq_zero.mp this).symm
    · rw [if_neg hn, if_neg (by simp [hcover])]
  refine ⟨hceq, fun a b w ha hb hab hw hr => ?_⟩
  rw [hceq]
  have hedge : (a, b) ∈ evalOrderEdges n inM outM cIn cOut :=
    mem_evalOrderEdges ha hb hab hw hr
  have hbmem : b ∈ kahnOrderOf n inM outM cIn cOut :=
    mem_of_nodup_bound_length hnd hbd hcover b hb
  exact (hord (a, b) hedge hbmem).2


/-- C7 counterexample to the claim as stated: a two-part chip whose parts
feed each other (part 0 reads `w1` which part 1 writes, and vice versa) is
a dependency cycle, yet `compute_eval_order` reports no error of any kind —
its return type has no error channel — and falls back to source order
`[0, 1]`, in which the reader part 0 comes before the writer part 1. -/
theorem eval_order_cycle_fallback_counterexample :
    compute_eval_order cycParts.length cycM.1 cycM.2 [] [] = [0, 1] ∧
    partWrites cycM.2 1 "w1" = true ∧
    "w1" ∈ wiresRead cycM.1 [] [] 0 ∧
    posOf (compute_eval_order cycParts.length cycM.1 cycM.2 [] []) 0 <
      posOf (compute_eval_order cycParts.length cycM.1 cycM.2 [] []) 1 := by
  refine ⟨?_, ?_, ?_, ?_⟩ <;> decide


/-- C7 witness: on a two-part chip where part 0 writes `w0` and part 1
reads it, the Kahn order covers both parts and the amended theorem applies:
the evaluation order is the Kahn order and every reader follows the parts
that write its wires. -/
theorem c7_witness :
    (kahnOrderOf 2 acyM.1 acyM.2 [] []).length = 2 ∧
    (compute_eval_order 2 acyM.1 acyM.2 [] [] = kahnOrderOf 2 acyM.1 acyM.2 [] [] ∧
     (∀ a b : Nat, ∀ w : String, a < 2 → b < 2 → a ≠ b →
       partWrites acyM.2 a w = true → w ∈ wiresRead acyM.1 [] [] b →
       posOf (compute_eval_order 2 acyM.1 acyM.2 [] []) a <
         posOf (compute_eval_order 2 acyM.1 acyM.2 [] []) b)) :=
  ⟨by decide, eval_order_readers_after_writers 2 acyM.1 acyM.2 [] [] (by decide)⟩
